import Mathlib

/-!
Verification of the mcetl spreadsheet-ETL core.

This file gives a shallow embedding, in Lean 4, of the parts of the
materials-commons mcetl repository that the verified properties below are
about: the cell value converter (internal/spreadsheet/column_attr_type.go),
the keyword registry (keywords.go), the row processor and header parsing
(processor/sample_tracker.go), the loader (loader.go), the workflow graph
builder (processor/workflow.go) and the workflow materializer
(processor/creater.go).  Go maps are embedded as association lists, Go
pointer graphs as an index arena, and the remote Materials Commons API as a
deterministic id-allocating server model whose calls are recorded in a
trace.  Machine integers use Int with explicit 64-bit bounds where Go's
strconv checks them.
-/

set_option maxHeartbeats 1600000
set_option linter.unnecessarySeqFocus false

namespace Mcetl

/-! ## Go string primitives -/

/-- The opening curly bracket character. -/
def lbrace : Char := '\x7b'

/-- The closing curly bracket character. -/
def rbrace : Char := '\x7d'

/-- Whitespace recognized by Go's strings.TrimSpace (unicode.IsSpace), on the
ASCII range that the inputs in this development use. -/
def isGoSpace (c : Char) : Bool :=
  c = ' ' || c = '\t' || c = '\n' || c = '\x0b' || c = '\x0c' || c = '\r'

/-- Embeds strings.TrimSpace. -/
def goTrimSpace (s : String) : String :=
  ⟨((s.toList.dropWhile isGoSpace).reverse.dropWhile isGoSpace).reverse⟩

/-- Embeds strings.ToLower on the ASCII range used by keyword cells. -/
def goToLower (s : String) : String :=
  ⟨s.toList.map Char.toLower⟩

/-- Index of the first occurrence of a character, as strings.Index does for a
one-byte separator (byte index and character index agree because the
separators looked up, such as a colon or a paren, are ASCII and slicing at
ASCII positions never splits a rune). -/
def charIndex (cs : List Char) (c : Char) : Option Nat :=
  match cs with
  | [] => none
  | x :: xs => if x = c then some 0 else (charIndex xs c).map (· + 1)

/-- Index of the last occurrence of a character (strings.LastIndex). -/
def charLastIndex (cs : List Char) (c : Char) : Option Nat :=
  match cs with
  | [] => none
  | x :: xs =>
    match charLastIndex xs c with
    | some i => some (i + 1)
    | none => if x = c then some 0 else none

/-- Go slice s[i:j] on characters. -/
def goSlice (cs : List Char) (i j : Nat) : List Char :=
  (cs.take j).drop i

/-- strings.Contains for a single character. -/
def containsChar (s : String) (c : Char) : Bool :=
  s.toList.contains c

/-- strings.Count for a single-character substring. -/
def countChar (s : String) (c : Char) : Nat :=
  s.toList.count c

/-- strings.HasPrefix for a one-character pattern. -/
def headIs (s : String) (c : Char) : Bool :=
  match s.toList with
  | [] => false
  | x :: _ => x = c

/-- strings.HasSuffix for a one-character pattern. -/
def lastIs (s : String) (c : Char) : Bool :=
  match s.toList.getLast? with
  | none => false
  | some x => x = c

/-! ## JSON values

encoding/json values as seen through json.Unmarshal into a Go
map[string]interface.  Numbers keep their raw lexeme: Go decodes every JSON
number to a float64, and the only observation the verified properties make
of a decoded number is the text Go's Sprintf %#v prints for it, which for
the integral values appearing in worksheet cells is the digit string
itself. -/

inductive Json where
  | null
  | bool (b : Bool)
  | num (raw : String)
  | str (s : String)
  | arr (elems : List Json)
  | obj (fields : List (String × Json))
deriving Repr, Inhabited

/-- A decoded map[string]interface value. -/
abbrev ValueMap := List (String × Json)

/-- Go map assignment m[k] = v: replaces an existing key, else appends. -/
def mapSet (m : ValueMap) (k : String) (v : Json) : ValueMap :=
  match m with
  | [] => [(k, v)]
  | (k', v') :: rest => if k' = k then (k, v) :: rest else (k', v') :: mapSet rest k v

/-! ## JSON parser (encoding/json syntax)

A fuel-indexed recursive-descent parser for RFC 8259 JSON, the grammar
json.Unmarshal accepts.  Object keys collide Go-map style (later wins).
Lone surrogate escapes decode to U+FFFD as Go does; surrogate pairs are not
recombined (no verified property exercises them). -/

/-- JSON insignificant whitespace. -/
def jsonSkipWs (cs : List Char) : List Char :=
  cs.dropWhile (fun c => c = ' ' || c = '\t' || c = '\n' || c = '\r')

/-- Hex digit value, by code point: 48-57 are the digits, 97-102 and 65-70
the lower- and upper-case letters. -/
def hexVal (c : Char) : Option Nat :=
  let n := c.toNat
  if 48 ≤ n ∧ n ≤ 57 then some (n - 48)
  else if 97 ≤ n ∧ n ≤ 102 then some (n - 87)
  else if 65 ≤ n ∧ n ≤ 70 then some (n - 55)
  else none

/-- Parse the body of a JSON string after the opening quote; returns the
decoded characters and the input after the closing quote. -/
def parseStrBody : Nat → List Char → Option (List Char × List Char)
  | 0, _ => none
  | _ + 1, [] => none
  | fuel + 1, c :: cs =>
    if c = '"' then some ([], cs)
    else if c = '\\' then
      match cs with
      | [] => none
      | e :: cs' =>
        if e = '"' then (parseStrBody fuel cs').map (fun p => ('"' :: p.1, p.2))
        else if e = '\\' then (parseStrBody fuel cs').map (fun p => ('\\' :: p.1, p.2))
        else if e = '/' then (parseStrBody fuel cs').map (fun p => ('/' :: p.1, p.2))
        else if e = 'b' then (parseStrBody fuel cs').map (fun p => ('\x08' :: p.1, p.2))
        else if e = 'f' then (parseStrBody fuel cs').map (fun p => ('\x0c' :: p.1, p.2))
        else if e = 'n' then (parseStrBody fuel cs').map (fun p => ('\n' :: p.1, p.2))
        else if e = 'r' then (parseStrBody fuel cs').map (fun p => ('\r' :: p.1, p.2))
        else if e = 't' then (parseStrBody fuel cs').map (fun p => ('\t' :: p.1, p.2))
        else if e = 'u' then
          match cs' with
          | h1 :: h2 :: h3 :: h4 :: rest =>
            match hexVal h1, hexVal h2, hexVal h3, hexVal h4 with
            | some a, some b, some c2, some d =>
              let n := ((a * 16 + b) * 16 + c2) * 16 + d
              let ch := if 0xD800 ≤ n && n ≤ 0xDFFF then '�' else Char.ofNat n
              (parseStrBody fuel rest).map (fun p => (ch :: p.1, p.2))
            | _, _, _, _ => none
          | _ => none
        else none
    else if c.toNat < 0x20 then none
    else (parseStrBody fuel cs).map (fun p => (c :: p.1, p.2))

/-- One or more decimal digits. -/
def takeDigits1 (cs : List Char) : Option (List Char × List Char) :=
  let ds := cs.takeWhile Char.isDigit
  if ds.isEmpty then none else some (ds, cs.drop ds.length)

/-- Parse a JSON number lexeme (RFC 8259 grammar). -/
def parseNumLexeme (cs : List Char) : Option (List Char × List Char) := do
  let (sign, cs1) :=
    match cs with
    | '-' :: rest => ([('-' : Char)], rest)
    | _ => ([], cs)
  let (intPart, cs2) ←
    match cs1 with
    | '0' :: rest => some ([('0' : Char)], rest)
    | _ => do
      let (ds, rest) ← takeDigits1 cs1
      pure (ds, rest)
  let (fracPart, cs3) ←
    match cs2 with
    | '.' :: rest => do
      let (ds, rest') ← takeDigits1 rest
      pure ('.' :: ds, rest')
    | _ => pure (([] : List Char), cs2)
  let (expPart, cs4) ←
    match cs3 with
    | e :: rest =>
      if e = 'e' || e = 'E' then do
        let (esign, rest1) :=
          match rest with
          | s :: rest' => if s = '+' || s = '-' then ([s], rest') else ([], rest)
          | [] => ([], rest)
        let (ds, rest2) ← takeDigits1 rest1
        pure (e :: (esign ++ ds), rest2)
      else pure (([] : List Char), cs3)
    | [] => pure (([] : List Char), cs3)
  pure (sign ++ intPart ++ fracPart ++ expPart, cs4)

/-- `litTail lit cs` strips the exact characters of `lit` from `cs`. -/
def litTail : List Char → List Char → Option (List Char)
  | [], cs => some cs
  | _, [] => none
  | l :: ls, c :: cs => if c = l then litTail ls cs else none

mutual

/-- Parse one JSON value (after skipping leading whitespace). -/
def parseJsonValue : Nat → List Char → Option (Json × List Char)
  | 0, _ => none
  | fuel + 1, cs =>
    match jsonSkipWs cs with
    | [] => none
    | c :: rest =>
      if c = '"' then
        (parseStrBody (rest.length + 1) rest).map (fun p => (Json.str ⟨p.1⟩, p.2))
      else if c = lbrace then
        match jsonSkipWs rest with
        | c2 :: rest2 =>
          if c2 = rbrace then some (Json.obj [], rest2)
          else parseObjFields fuel (jsonSkipWs rest) []
        | [] => none
      else if c = '[' then
        match jsonSkipWs rest with
        | ']' :: rest2 => some (Json.arr [], rest2)
        | _ => parseArrElems fuel (jsonSkipWs rest) []
      else if c = 't' then
        (litTail ['r', 'u', 'e'] rest).map (fun r => (Json.bool true, r))
      else if c = 'f' then
        (litTail ['a', 'l', 's', 'e'] rest).map (fun r => (Json.bool false, r))
      else if c = 'n' then
        (litTail ['u', 'l', 'l'] rest).map (fun r => (Json.null, r))
      else
        (parseNumLexeme (c :: rest)).map (fun p => (Json.num ⟨p.1⟩, p.2))

/-- Parse the fields of an object, positioned at a key string. -/
def parseObjFields : Nat → List Char → ValueMap → Option (Json × List Char)
  | 0, _, _ => none
  | fuel + 1, cs, acc =>
    match jsonSkipWs cs with
    | '"' :: rest =>
      match parseStrBody (rest.length + 1) rest with
      | none => none
      | some (key, r1) =>
        match jsonSkipWs r1 with
        | ':' :: r2 =>
          match parseJsonValue fuel r2 with
          | none => none
          | some (v, r3) =>
            let acc' := mapSet acc ⟨key⟩ v
            match jsonSkipWs r3 with
            | ',' :: r4 => parseObjFields fuel r4 acc'
            | c :: r4 => if c = rbrace then some (Json.obj acc', r4) else none
            | [] => none
        | _ => none
    | _ => none

/-- Parse the elements of an array, positioned at the first element. -/
def parseArrElems : Nat → List Char → List Json → Option (Json × List Char)
  | 0, _, _ => none
  | fuel + 1, cs, acc =>
    match parseJsonValue fuel cs with
    | none => none
    | some (v, r1) =>
      match jsonSkipWs r1 with
      | ',' :: r2 => parseArrElems fuel r2 (acc ++ [v])
      | ']' :: r2 => some (Json.arr (acc ++ [v]), r2)
      | _ => none

end

/-- Parse a whole input as one JSON value with nothing but whitespace after
it, as json.Unmarshal requires. -/
def jsonParse (s : String) : Option Json :=
  match parseJsonValue (s.length + 1) s.toList with
  | none => none
  | some (v, rest) => if (jsonSkipWs rest).isEmpty then some v else none

/-- json.Unmarshal(data, ptr-to-map): the top-level value must additionally
be an object. -/
def jsonUnmarshalMap (s : String) : Option ValueMap :=
  match jsonParse s with
  | some (Json.obj fields) => some fields
  | _ => none

/-! ## strconv models -/

/-- strconv.ParseInt(s, 10, 64): optional sign, one or more decimal digits,
value within the signed 64-bit range.  Returns the parsed value on success
(the converter caches it in cellConverter.intVal). -/
def goParseInt64 (s : String) : Option Int :=
  let cs := s.toList
  let (neg, ds) :=
    match cs with
    | '-' :: rest => (true, rest)
    | '+' :: rest => (false, rest)
    | _ => (false, cs)
  if ds.isEmpty || !(ds.all Char.isDigit) then none
  else
    let mag : Nat := ds.foldl (fun acc c => acc * 10 + (c.toNat - '0'.toNat)) 0
    let v : Int := if neg then -(mag : Int) else (mag : Int)
    if -(2 ^ 63) ≤ v && v ≤ 2 ^ 63 - 1 then some v else none

/-- strconv.ParseBool: the exact ten strings Go accepts. -/
def goParseBool (s : String) : Option Bool :=
  if s = "1" || s = "t" || s = "T" || s = "TRUE" || s = "true" || s = "True" then some true
  else if s = "0" || s = "f" || s = "F" || s = "FALSE" || s = "false" || s = "False" then
    some false
  else none

/-- Decimal mantissa as strconv's readFloat accepts it: digits with an
optional dot, at least one digit overall. -/
def goDecMantissaOk (cs : List Char) : Bool :=
  let intDigits := cs.takeWhile Char.isDigit
  let rest := cs.drop intDigits.length
  match rest with
  | [] => !intDigits.isEmpty
  | '.' :: fracPart => (!intDigits.isEmpty || !fracPart.isEmpty) && fracPart.all Char.isDigit
  | _ => false

/-- Optional [eE][+-]?digits exponent suffix; splits it off the end. -/
def goSplitExp (cs : List Char) : List Char × Bool :=
  match charIndex cs 'e', charIndex cs 'E' with
  | none, none => (cs, true)
  | i?, j? =>
    let i := match i?, j? with
      | some i, some j => min i j
      | some i, none => i
      | none, some j => j
      | none, none => 0
    let expDigits :=
      match goSlice cs (i + 1) cs.length with
      | '+' :: ds => ds
      | '-' :: ds => ds
      | ds => ds
    (cs.take i, !expDigits.isEmpty && expDigits.all Char.isDigit)

/-- Case-insensitive inf / infinity / nan with optional sign, the special
forms strconv.ParseFloat accepts. -/
def goIsInfNanForm (s : String) : Bool :=
  let low := goToLower s
  let body :=
    match low.toList with
    | '+' :: rest => rest
    | '-' :: rest => rest
    | cs => cs
  body = "inf".toList || body = "infinity".toList || body = "nan".toList

/-- Hexadecimal float syntax 0x mantissa p exponent (mandatory p), per
strconv.ParseFloat. -/
def goHexFloatOk (cs : List Char) : Bool :=
  match cs with
  | '0' :: x :: rest =>
    if x = 'x' || x = 'X' then
      match charIndex rest 'p', charIndex rest 'P' with
      | none, none => false
      | i?, j? =>
        let i := match i?, j? with
          | some i, some j => min i j
          | some i, none => i
          | none, some j => j
          | none, none => 0
        let mant := rest.take i
        let expDigits :=
          match goSlice rest (i + 1) rest.length with
          | '+' :: ds => ds
          | '-' :: ds => ds
          | ds => ds
        let intDigits := mant.takeWhile (fun c => (hexVal c).isSome)
        let mantOk :=
          match mant.drop intDigits.length with
          | [] => !intDigits.isEmpty
          | '.' :: fracPart =>
            (!intDigits.isEmpty || !fracPart.isEmpty) && fracPart.all (fun c => (hexVal c).isSome)
          | _ => false
        mantOk && !expDigits.isEmpty && expDigits.all Char.isDigit
    else false
  | _ => false

/-- strconv.ParseFloat(s, 64) returning err == nil.  Overflowing decimal
syntax yields ErrRange (err not nil) in Go; the range check is not modeled
because cellToFloat sends the error path and the finite success path to the
same place (see cellToFloat), making it unobservable. -/
def goParseFloatOk (s : String) : Bool :=
  if goIsInfNanForm s then true
  else
    let cs :=
      match s.toList with
      | '+' :: rest => rest
      | '-' :: rest => rest
      | cs => cs
    if goHexFloatOk cs then true
    else
      let (mant, expOk) := goSplitExp cs
      goDecMantissaOk mant && expOk && !cs.isEmpty

/-! ## Cell value converter

Embeds the cellConverter of internal/spreadsheet/column_attr_type.go (the
version whose conversions return an error).  A conversion produces the
decoded map for the JSON text the source interpolates the cell into. -/

abbrev ConvResult := Except String ValueMap

/-- The text Sprintf builds for the quoted-string wrapping. -/
def wrapStringText (cell : String) : String :=
  "\x7b\"value\": \"" ++ cell ++ "\"\x7d"

/-- The text Sprintf builds for the raw interpolation wrapping. -/
def wrapRawText (cell : String) : String :=
  "\x7b\"value\": " ++ cell ++ "\x7d"

/-- cellConverter.cellToString: wrap the cell in quotes and Unmarshal; the
only conversion that can fail. -/
def cellToString (cell : String) : ConvResult :=
  match jsonUnmarshalMap (wrapStringText cell) with
  | some val => .ok val
  | none => .error ("cannot convert cell to JSON string: " ++ cell)

/-- cellConverter.cellToObject: Unmarshal the raw interpolation, falling back
to the string wrapping on failure. -/
def cellToObject (cell : String) : ConvResult :=
  match jsonUnmarshalMap (wrapRawText cell) with
  | some val => .ok val
  | none => cellToString cell

/-- cellConverter.cellToArray delegates to cellToObject. -/
def cellToArray (cell : String) : ConvResult :=
  cellToObject cell

/-- cellConverter.cellToFloat.  When ParseFloat fails, the string wrapping is
returned.  When ParseFloat succeeds on a finite value, Sprintf %f prints a
plain decimal numeral, json.Unmarshal on it succeeds, and the source's
check (err == nil, inverted relative to its own doc comment) returns the
string wrapping as well.  Only for the inf/nan special forms does %f print
text that is not JSON, in which case the failed Unmarshal leaves the freshly
made empty map to be returned. -/
def cellToFloat (cell : String) : ConvResult :=
  if goParseFloatOk cell then
    if goIsInfNanForm cell then .ok []
    else cellToString cell
  else cellToString cell

/-- cellConverter.cellToInt: Sprintf %d of the cached int64 is always a
valid JSON number, so the Unmarshal branch succeeds. -/
def cellToInt (intVal : Int) : ConvResult :=
  match jsonUnmarshalMap (wrapRawText (toString intVal)) with
  | some val => .ok val
  | none => .ok []

/-- cellConverter.cellToBool: Sprintf %t of the cached bool is always valid
JSON, so the Unmarshal branch succeeds. -/
def cellToBool (boolVal : Bool) : ConvResult :=
  match jsonUnmarshalMap (wrapRawText (if boolVal then "true" else "false")) with
  | some val => .ok val
  | none => .ok []

/-- cellConverter.cellToJSONMap: the type-dispatch cascade over a cell
string. -/
def cellToJSONMap (cell : String) : ConvResult :=
  if headIs cell lbrace && lastIs cell rbrace then cellToObject cell
  else if headIs cell '[' && lastIs cell ']' then cellToArray cell
  else if containsChar cell '.' && countChar cell '.' = 1 then cellToFloat cell
  else
    match goParseInt64 cell with
    | some intVal => cellToInt intVal
    | none =>
      match goParseBool cell with
      | some boolVal => cellToBool boolVal
      | none => cellToString cell

/-! ## Keyword registry (keywords.go, the part with ValidateKeywords)

The three Go keyword maps are embedded as their key lists; map semantics
(key-set membership, emptiness) is all the source reads of them. -/

structure Keywords where
  sampleAttributeKeywords : List String
  processAttributeKeywords : List String
  fileAttributeKeywords : List String
deriving Repr

/-- The default keyword sets. -/
def defaultKeywords : Keywords :=
  ⟨["s", "sample", "sample attribute"], ["p", "process"], ["f", "file", "files"]⟩

/-- hasKeywordInCell: lowercase the cell, find the first colon; absent means
no keyword; otherwise look the text before it up in the given set. -/
def hasKeywordInCell (cell : String) (keywords : List String) : Bool :=
  let low := goToLower cell
  match charIndex low.toList ':' with
  | none => false
  | some i => keywords.contains ⟨low.toList.take i⟩

inductive ColumnAttributeType where
  | sampleAttributeColumn
  | processAttributeColumn
  | fileAttributeColumn
  | ignoreAttributeColumn
  | unknownAttributeColumn
deriving Repr, DecidableEq, Inhabited

/-- columnAttributeTypeFromKeyword: process, then sample, then file keyword
check; anything else (including a cell with no colon at all) is unknown. -/
def columnAttributeTypeFromKeyword (kw : Keywords) (cell : String) : ColumnAttributeType :=
  if hasKeywordInCell cell kw.processAttributeKeywords then .processAttributeColumn
  else if hasKeywordInCell cell kw.sampleAttributeKeywords then .sampleAttributeColumn
  else if hasKeywordInCell cell kw.fileAttributeKeywords then .fileAttributeColumn
  else .unknownAttributeColumn

/-- The count a keyword reaches in overlappingKeywords' count map: each Go
map contributes 1 per key it contains (map keys are unique). -/
def keywordCount (kw : Keywords) (k : String) : Nat :=
  (if kw.processAttributeKeywords.contains k then 1 else 0) +
  (if kw.sampleAttributeKeywords.contains k then 1 else 0) +
  (if kw.fileAttributeKeywords.contains k then 1 else 0)

/-- overlappingKeywords: true when some keyword's count across the three
sets differs from 1, i.e. some keyword sits in at least two sets. -/
def overlappingKeywords (kw : Keywords) : Bool :=
  (kw.processAttributeKeywords ++ kw.sampleAttributeKeywords ++
    kw.fileAttributeKeywords).any (fun k => keywordCount kw k ≠ 1)

/-- ValidateKeywords: the error returned, none on success. -/
def ValidateKeywords (kw : Keywords) : Option String :=
  if kw.processAttributeKeywords.isEmpty then some "there must be at least 1 process keyword"
  else if kw.sampleAttributeKeywords.isEmpty then some "there must be at least 1 sample keyword"
  else if kw.fileAttributeKeywords.isEmpty then some "there must be at least 1 file keyword"
  else if overlappingKeywords kw then some "there are overlapping keywords"
  else none

/-! ## Worksheet model (model package: Worksheet, Sample, Attribute, File) -/

structure Attribute where
  name : String
  unit : String
  column : Nat
  value : Option ValueMap := none
deriving Repr, Inhabited

/-- model.File. -/
structure FileRef where
  path : String
  column : Nat
deriving Repr, DecidableEq

/-- Modelled from the spec: model.FileHeader and model.NewFileHeader are
referenced by sample_tracker.go but their definition file is not under src.
The spec describes a file header as (description, base path, column). -/
structure FileHeader where
  description : String
  path : String
  column : Nat
deriving Repr, DecidableEq

structure Sample where
  name : String
  parent : String := ""
  row : Nat
  attributes : List Attribute := []
  processAttrs : List Attribute := []
  files : List FileRef := []
deriving Repr, Inhabited

structure Worksheet where
  name : String
  index : Nat
  processAttrs : List Attribute := []
  samples : List Sample := []
  sampleAttrs : List Attribute := []
  fileHeaders : List FileHeader := []
deriving Repr, Inhabited

/-! ## Header cell sub-syntax (sample_tracker.go) -/

/-- cell2NameAndUnit (the version that trims name and unit): strip an
optional keyword up to the first colon, then split the remainder at the
parens.  Go slices the unit as cell[open+1:close] with the first index of
each paren; when the first close paren precedes the first open paren the
slice bounds are inverted and the Go program panics, which this embedding
renders as none. -/
def cell2NameAndUnit (cell0 : String) : Option (String × String) :=
  let cell := goTrimSpace cell0
  if cell = "" then some ("", "")
  else
    let cell :=
      match charIndex cell.toList ':' with
      | some i => goTrimSpace ⟨cell.toList.drop (i + 1)⟩
      | none => cell
    let cs := cell.toList
    match charIndex cs '(' with
    | none => some (cell, "")
    | some o =>
      match charIndex cs ')' with
      | some c =>
        if o + 1 ≤ c then
          some (goTrimSpace ⟨cs.take o⟩, goTrimSpace ⟨goSlice cs (o + 1) c⟩)
        else none
      | none => some (goTrimSpace ⟨cs.take o⟩, goTrimSpace ⟨cs.drop (o + 1)⟩)

/-- createFileHeader: the last colon separates the path; with two or more
colons the text between the first and last is the description.  With no
colon at all Go's cell[firstColon+1:] degenerates to the whole cell. -/
def createFileHeader (cell : String) (column : Nat) : FileHeader :=
  let cs := cell.toList
  match charIndex cs ':', charLastIndex cs ':' with
  | some f, some s =>
    if f ≠ s then
      ⟨⟨goSlice cs (f + 1) s⟩, goTrimSpace ⟨cs.drop (s + 1)⟩, column⟩
    else
      ⟨"", goTrimSpace ⟨cs.drop (f + 1)⟩, column⟩
  | _, _ => ⟨"", goTrimSpace cell, column⟩

/-- Modelled from the spec: isBlank is referenced by processSampleRow but
has no definition under src.  The spec fixes the blank-equivalent cell set
as the empty string, n/a and blank, case-insensitive and trimmed. -/
def isBlank (cell : String) : Bool :=
  let c := goToLower (goTrimSpace cell)
  c = "" || c = "n/a" || c = "blank"

/-- filepath.Join for the two-component use in cell2Filepath (the path
cleaning Join also performs does not affect the verified properties). -/
def joinPath (dir file : String) : String :=
  if dir = "" then file else dir ++ "/" ++ file

/-- cell2Filepath: a cell containing a slash is already a path; otherwise
join the file header's base path when there is a file header. -/
def cell2Filepath (cell : String) (fileHeader : Option FileHeader) : String :=
  if containsChar cell '/' then cell
  else
    match fileHeader with
    | some fh => joinPath fh.path cell
    | none => cell

/-! ## Row processor (sample_tracker.go rowProcessor) -/

/-- Go map assignment for the column-type map. -/
def ctSet (m : List (Nat × ColumnAttributeType)) (k : Nat) (v : ColumnAttributeType) :
    List (Nat × ColumnAttributeType) :=
  match m with
  | [] => [(k, v)]
  | (k', v') :: rest => if k' = k then (k, v) :: rest else (k', v') :: ctSet rest k v

/-- Go map lookup for the column-type map. -/
def ctGet (m : List (Nat × ColumnAttributeType)) (k : Nat) : Option ColumnAttributeType :=
  match m with
  | [] => none
  | (k', v') :: rest => if k' = k then some v' else ctGet rest k

/-- The rowProcessor state built by the header row. -/
structure HeaderState where
  ws : Worksheet
  columnType : List (Nat × ColumnAttributeType) := []
deriving Repr

/-- findAttr: first header attribute recorded for the column. -/
def findAttr (attributes : List Attribute) (column : Nat) : Option Attribute :=
  match attributes with
  | [] => none
  | a :: rest => if a.column = column then some a else findAttr rest column

/-- findFileHeader: first file header recorded for the column. -/
def findFileHeader (fileHeaders : List FileHeader) (column : Nat) : Option FileHeader :=
  match fileHeaders with
  | [] => none
  | fh :: rest => if fh.column = column then some fh else findFileHeader rest column

/-- One header cell of processHeaderRow.  Column 1 is always skipped and
column 2 is skipped when hasParent; blank cells are skipped; classified
cells record their kind and their parsed header.  none renders the
cell2NameAndUnit panic. -/
def processHeaderCell (kw : Keywords) (hasParent : Bool) (st : HeaderState) (column : Nat)
    (colCell0 : String) : Option HeaderState :=
  let colCell := goTrimSpace colCell0
  if column < 3 && hasParent then some st
  else if column < 2 then some st
  else if colCell = "" then some st
  else
    match columnAttributeTypeFromKeyword kw colCell with
    | .processAttributeColumn =>
      match cell2NameAndUnit colCell with
      | none => none
      | some (name, unit) =>
        some { ws := { st.ws with processAttrs := st.ws.processAttrs ++ [⟨name, unit, column, none⟩] }
               columnType := ctSet st.columnType column .processAttributeColumn }
    | .sampleAttributeColumn =>
      match cell2NameAndUnit colCell with
      | none => none
      | some (name, unit) =>
        some { ws := { st.ws with sampleAttrs := st.ws.sampleAttrs ++ [⟨name, unit, column, none⟩] }
               columnType := ctSet st.columnType column .sampleAttributeColumn }
    | .fileAttributeColumn =>
      some { ws := { st.ws with fileHeaders := st.ws.fileHeaders ++ [createFileHeader colCell column] }
             columnType := ctSet st.columnType column .fileAttributeColumn }
    | .ignoreAttributeColumn =>
      some { st with columnType := ctSet st.columnType column .ignoreAttributeColumn }
    | .unknownAttributeColumn => some st

/-- The header-row loop over the cells, column numbered from 1. -/
def processHeaderCells (kw : Keywords) (hasParent : Bool) :
    HeaderState → Nat → List String → Option HeaderState
  | st, _, [] => some st
  | st, column, cell :: rest => do
    let st' ← processHeaderCell kw hasParent st (column + 1) cell
    processHeaderCells kw hasParent st' (column + 1) rest

/-- processHeaderRow on the cells of the header row. -/
def processHeaderRow (kw : Keywords) (hasParent : Bool) (wsName : String) (index : Nat)
    (cells : List String) : Option HeaderState :=
  processHeaderCells kw hasParent ⟨{ name := wsName, index := index }, []⟩ 0 cells

/-- Outcome of processing one data row. -/
inductive RowResult where
  | skipped
  | ok (sample : Sample)
  | err (msg : String)
deriving Repr

/-- The data-row loop of processSampleRow: cur is the currentSample being
filled in; the Option layer renders Go panics (nil currentSample, missing
header attribute). -/
def processRowCells (hs : HeaderState) (hasParent : Bool) (rowIndex : Nat) :
    Option Sample → Nat → List String → Option RowResult
  | cur, _, [] =>
    some (match cur with
      | some s => .ok s
      | none => .skipped)
  | cur, column0, colCell0 :: rest =>
    let colCell := goTrimSpace colCell0
    let column := column0 + 1
    if column = 1 then
      if colCell = "" then some .skipped
      else processRowCells hs hasParent rowIndex (some { name := colCell, row := rowIndex }) column rest
    else if column = 2 && hasParent then
      match cur with
      | none => none
      | some s => processRowCells hs hasParent rowIndex (some { s with parent := colCell }) column rest
    else
      if isBlank colCell then processRowCells hs hasParent rowIndex cur column rest
      else
        match ctGet hs.columnType column with
        | none => processRowCells hs hasParent rowIndex cur column rest
        | some .sampleAttributeColumn =>
          match findAttr hs.ws.sampleAttrs column with
          | none => none
          | some attr =>
            match cellToJSONMap colCell with
            | .error e =>
              some (.err ("Error converting cell in worksheet " ++ hs.ws.name ++ ": row, column, value " ++
                colCell ++ ": " ++ e))
            | .ok val =>
              match cur with
              | none => none
              | some s =>
                processRowCells hs hasParent rowIndex
                  (some { s with attributes := s.attributes ++ [⟨attr.name, attr.unit, attr.column, some val⟩] })
                  column rest
        | some .processAttributeColumn =>
          match findAttr hs.ws.processAttrs column with
          | none => none
          | some attr =>
            match cellToJSONMap colCell with
            | .error e =>
              some (.err ("Error converting cell in worksheet " ++ hs.ws.name ++ ": row, column, value " ++
                colCell ++ ": " ++ e))
            | .ok val =>
              match cur with
              | none => none
              | some s =>
                processRowCells hs hasParent rowIndex
                  (some { s with processAttrs := s.processAttrs ++ [⟨attr.name, attr.unit, attr.column, some val⟩] })
                  column rest
        | some .fileAttributeColumn =>
          match cur with
          | none => none
          | some s =>
            let fh := findFileHeader hs.ws.fileHeaders column
            processRowCells hs hasParent rowIndex
              (some { s with files := s.files ++ [⟨cell2Filepath colCell fh, column⟩] })
              column rest
        | some .ignoreAttributeColumn => processRowCells hs hasParent rowIndex cur column rest
        | some .unknownAttributeColumn => processRowCells hs hasParent rowIndex cur column rest

/-- processSampleRow on the cells of one data row. -/
def processSampleRow (hs : HeaderState) (hasParent : Bool) (rowIndex : Nat)
    (cells : List String) : Option RowResult :=
  processRowCells hs hasParent rowIndex none 0 cells

/-! ## Loader (the Load with a header-row offset and parent validation) -/

/-- One sheet of the workbook: its name and its rows of cells.  Go iterates
xlsx.GetSheetMap(), whose order is unspecified; the sheet list order here
stands for the order that iteration happened to produce, and every verified
property is insensitive to it. -/
structure SheetData where
  name : String
  rows : List (List String)
deriving Repr

/-- The data-row loop of loadWorksheet: the first conversion error aborts
the worksheet (nil worksheet, the error); skipped rows add nothing. -/
def loadDataRows (hasParent : Bool) :
    HeaderState → Nat → List (List String) → Option (Except String Worksheet)
  | hs, _, [] => some (.ok hs.ws)
  | hs, row, cells :: rest => do
    let res ← processSampleRow hs hasParent (row + 1) cells
    match res with
    | .err e => some (.error e)
    | .skipped => loadDataRows hasParent hs (row + 1) rest
    | .ok s =>
      loadDataRows hasParent { hs with ws := { hs.ws with samples := hs.ws.samples ++ [s] } }
        (row + 1) rest

/-- loadWorksheet: skip headerRow rows, process the header row, then the
data rows.  The outer Option renders Go panics. -/
def loadWorksheet (kw : Keywords) (hasParent : Bool) (headerRow : Nat) (wsName : String)
    (index : Nat) (rows : List (List String)) : Option (Except String Worksheet) :=
  let rows := rows.drop headerRow
  match rows with
  | [] => some (.ok { name := wsName, index := index })
  | header :: dataRows => do
    let hs ← processHeaderRow kw hasParent wsName index header
    loadDataRows hasParent hs 1 dataRows

/-- The parent-validation errors contributed by one sample: a self
reference when the parent names the sample's own worksheet, unknown-parent
when no worksheet carries the name. -/
def parentErrorsFor (names : List String) (wsName : String) (s : Sample) : List String :=
  if s.parent = "" then []
  else if s.parent = wsName then
    ["process " ++ wsName ++ " has Sample " ++ s.name ++ " who's parent is the current process"]
  else if names.contains s.parent then []
  else
    ["sample " ++ s.name ++ " in process " ++ wsName ++ " has parent " ++ s.parent ++
      " that does not exist"]

/-- validateParents: every error across all worksheets and samples,
accumulated multierror style. -/
def validateParents (worksheets : List Worksheet) : List String :=
  let names := worksheets.map (·.name)
  (worksheets.map (fun ws => (ws.samples.map (parentErrorsFor names ws.name)).flatten)).flatten

/-- The per-sheet loop of Load: parse errors are accumulated and parsing
continues with the next sheet. -/
def loadSheets (kw : Keywords) (hasParent : Bool) (headerRow : Nat) :
    List Worksheet → List String → Nat → List SheetData →
    Option (List Worksheet × List String)
  | wss, errs, _, [] => some (wss, errs)
  | wss, errs, index, sheet :: rest => do
    let res ← loadWorksheet kw hasParent headerRow sheet.name index sheet.rows
    match res with
    | .error e => loadSheets kw hasParent headerRow wss (errs ++ [e]) (index + 1) rest
    | .ok ws => loadSheets kw hasParent headerRow (wss ++ [ws]) errs (index + 1) rest

/-- Load: validate the keywords, load every sheet accumulating errors, then
run parent validation; returns the parsed worksheets together with the
accumulated error list (empty list standing for ErrorOrNil's nil). -/
def Load (kw : Keywords) (hasParent : Bool) (headerRow : Nat) (sheets : List SheetData) :
    Option (List Worksheet × List String) :=
  match ValidateKeywords kw with
  | some e => some ([], [e])
  | none => do
    let (wss, errs) ← loadSheets kw hasParent headerRow [] [] 1 sheets
    pure (wss, errs ++ validateParents wss)

/-! ## Workflow builder (processor/workflow.go)

Go's pointer-linked WorkflowProcess graph is embedded as an arena: nodes
live in an array and edges are indices.  The sha256-hex unique key is kept
as its preimage text: the digest is only ever used through equality, so
this is faithful up to sha256 collisions. -/

/-- mcapi.Sample as the creater reads it. -/
structure MSample where
  id : Nat
  propertySetId : Nat
  name : String
deriving Repr, DecidableEq

/-- mcapi.Process as the creater reads it. -/
structure MProcess where
  id : Nat
deriving Repr, DecidableEq

/-- WorkflowProcess; toNodes and fromNodes are the To and From edge
lists. -/
structure WorkflowProcess where
  worksheet : Option Worksheet := none
  key : String := ""
  sampleName : String := ""
  samples : List Sample := []
  out : List MSample := []
  process : Option MProcess := none
  toNodes : List Nat := []
  fromNodes : List Nat := []
deriving Repr, Inhabited

structure Workflow where
  nodes : Array WorkflowProcess := #[]
  root : List Nat := []
  existingSamples : List (String × Sample) := []
  uniqueProcessInstances : List (String × Nat) := []
  HasParent : Bool := false
deriving Repr, Inhabited

/-- Sprintf %#v of one map field.  Nested composites print their type
prefix only: the verified pipeline never prints a cell value holding a
nested composite into a key. -/
def goReprField (k : String) (v : Json) : String :=
  "\"" ++ k ++ "\":" ++
    (match v with
     | .null => "interface \x7b\x7d(nil)"
     | .bool b => if b then "true" else "false"
     | .num raw => raw
     | .str s => "\"" ++ s ++ "\""
     | .arr _ => "[]interface \x7b\x7d\x7b...\x7d"
     | .obj _ => "map[string]interface \x7b\x7d\x7b...\x7d")

/-- Sprintf %#v of the fields of an attribute Value map.  fmt prints map
keys sorted; every map the verified pipeline prints has a single key, so
field order is the identity and is left as parsed. -/
def goReprFields : ValueMap → String
  | [] => ""
  | [(k, v)] => goReprField k v
  | (k, v) :: rest => goReprField k v ++ ", " ++ goReprFields rest

/-- Sprintf %#v of an Attribute.Value (a possibly-nil Go map). -/
def goReprAttrValue : Option ValueMap → String
  | none => "map[string]interface \x7b\x7d(nil)"
  | some m => "map[string]interface \x7b\x7d\x7b" ++ goReprFields m ++ "\x7d"

/-- The sha256-hex digest used for unique keys, kept as its preimage (the
digest is used only through equality). -/
def sha256Hex (s : String) : String := s

/-- makeSampleInstanceKey: worksheet name, then unit and %#v value of every
per-row process attribute (and, without parent semantics, sample
attribute), prefixed by the sample name, hashed. -/
def makeSampleInstanceKey (w : Workflow) (sample : Sample) (starting : String) : String :=
  let key := sample.processAttrs.foldl
    (fun key attr => key ++ attr.unit ++ goReprAttrValue attr.value) starting
  let key :=
    if !w.HasParent then
      sample.attributes.foldl (fun key attr => key ++ attr.unit ++ goReprAttrValue attr.value) key
    else key
  sha256Hex (sample.name ++ key)

/-- Append a node to the arena, returning its index. -/
def addNode (w : Workflow) (n : WorkflowProcess) : Workflow × Nat :=
  ({ w with nodes := w.nodes.push n }, w.nodes.size)

/-- The body of the sample-collection loop of createSampleProcesses
(first row of a name wins). -/
def collectSampleStep (ex : List (String × Sample)) (s : Sample) : List (String × Sample) :=
  if (ex.lookup s.name).isSome then ex else ex ++ [(s.name, s)]

/-- The body of the root-creation loop of createSampleProcesses. -/
def rootNodeStep (w : Workflow) (p : String × Sample) : Workflow :=
  let (w', i) := addNode w { samples := [p.2] }
  { w' with root := w'.root ++ [i] }

/-- createSampleProcesses: collect the distinct sample names (first row
wins), then one root node per collected sample.  Go iterates the
existingSamples map in unspecified order; insertion order stands for it
here, and the verified properties are insensitive to it. -/
def createSampleProcesses (w : Workflow) (worksheets : List Worksheet) : Workflow :=
  let existing := worksheets.foldl
    (fun ex ws => ws.samples.foldl collectSampleStep ex) w.existingSamples
  let w := { w with existingSamples := existing }
  existing.foldl rootNodeStep w

/-- The per-row body of createUniqueProcessesMap: one node per distinct
key; a repeated key adds the row to the existing node's member samples. -/
def uniqueProcessStep (ws : Worksheet) (w : Workflow) (sample : Sample) : Workflow :=
  let key := makeSampleInstanceKey w sample ws.name
  match w.uniqueProcessInstances.lookup key with
  | none =>
    let (w', i) := addNode w
      { worksheet := some ws, sampleName := sample.name, key := key, samples := [sample] }
    { w' with uniqueProcessInstances := w'.uniqueProcessInstances ++ [(key, i)] }
  | some i =>
    { w with nodes := w.nodes.modify i (fun n => { n with samples := n.samples ++ [sample] }) }

/-- createUniqueProcessesMap over all worksheets and rows. -/
def createUniqueProcessesMap (w : Workflow) (worksheets : List Worksheet) : Workflow :=
  worksheets.foldl (fun w ws => ws.samples.foldl (uniqueProcessStep ws) w) w

/-- findProcessFromSampleInWorksheet via the unique key. -/
def findProcessFromSampleInWorksheet (w : Workflow) (sample : Sample) (worksheetName : String) :
    Option Nat :=
  w.uniqueProcessInstances.lookup (makeSampleInstanceKey w sample worksheetName)

/-- findMatchingCreateSampleProcess: first root node holding a member
sample of the name. -/
def findMatchingCreateSampleProcess (w : Workflow) (sampleName : String) : Option Nat :=
  w.root.find? (fun i =>
    ((w.nodes.getD i default).samples.find? (fun s => s.name = sampleName)).isSome)

/-- findMatchingEntry: in the first worksheet of the parent's name holding
a sample of the name, recompute that sample's key and look it up; a found
sample returns the lookup result immediately (even when absent). -/
def findMatchingEntry (w : Workflow) (sampleName worksheetName : String) :
    List Worksheet → Option Nat
  | [] => none
  | ws :: rest =>
    if ws.name = worksheetName then
      match ws.samples.find? (fun s => s.name = sampleName) with
      | some s => w.uniqueProcessInstances.lookup (makeSampleInstanceKey w s worksheetName)
      | none => findMatchingEntry w sampleName worksheetName rest
    else findMatchingEntry w sampleName worksheetName rest

/-- wireProcessesTogetherFromTo: append the edge in both directions. -/
def wireProcessesTogetherFromTo (w : Workflow) (fromIdx toIdx : Nat) : Workflow :=
  let w := { w with nodes := w.nodes.modify toIdx (fun n => { n with fromNodes := n.fromNodes ++ [fromIdx] }) }
  { w with nodes := w.nodes.modify fromIdx (fun n => { n with toNodes := n.toNodes ++ [toIdx] }) }

/-- The per-row body of wireupWorkflow: find the row's own node, find the
supplier (the root for an empty parent, the parent worksheet's node
otherwise) and wire them; lookup failures log and skip the row. -/
def wireupStep (worksheets : List Worksheet) (ws : Worksheet) (w : Workflow) (sample : Sample) :
    Workflow :=
  match findProcessFromSampleInWorksheet w sample ws.name with
  | none => w
  | some toIdx =>
    let parentIdx :=
      if sample.parent = "" then findMatchingCreateSampleProcess w sample.name
      else findMatchingEntry w sample.name sample.parent worksheets
    match parentIdx with
    | none => w
    | some fromIdx => wireProcessesTogetherFromTo w fromIdx toIdx

/-- wireupWorkflow over all worksheets and rows. -/
def wireupWorkflow (w : Workflow) (worksheets : List Worksheet) : Workflow :=
  worksheets.foldl (fun w ws => ws.samples.foldl (wireupStep worksheets ws) w) w

/-- constructWorkflow: the three passes. -/
def constructWorkflow (hasParent : Bool) (worksheets : List Worksheet) : Workflow :=
  let w : Workflow := { HasParent := hasParent }
  let w := createSampleProcesses w worksheets
  let w := createUniqueProcessesMap w worksheets
  wireupWorkflow w worksheets

/-! ## Materializer (processor/creater.go)

The remote client is modeled as an always-succeeding server that allocates
fresh ids; every remote call is appended to a chronological trace, tagged
with the arena index of the node the creater issued it for.  The one
modeled failure is create-experiment (the createExperiment error branch of
Apply); later calls cannot fail in this model, so the abort-on-error path
of createWorkflowSteps is not exercised by the verified properties. -/

inductive RCall where
  | createExperiment
  | updateExperimentProgress
  | createSample (node sampleId : Nat)
  | createProcessWithAttrs (node procId : Nat)
  | addSampleAndFilesToProcess (node procId sampleId propSetId : Nat)
  | addMeasurementsToSampleInProcess (node procId sampleId propSetId : Nat)
deriving Repr, DecidableEq

/-- Increment in the ByCallCounts map. -/
def natMapInc (m : List (String × Nat)) (k : String) : List (String × Nat) :=
  match m with
  | [] => [(k, 1)]
  | (k', v) :: rest => if k' = k then (k, v + 1) :: rest else (k', v) :: natMapInc rest k

/-- The creater's mutable state: the node arena (out and process fields are
filled during materialization), the call trace, the server id allocator and
the call counters. -/
structure CState where
  nodes : Array WorkflowProcess
  trace : List RCall := []
  nextId : Nat := 0
  count : Nat := 0
  byCallCounts : List (String × Nat) := []
deriving Repr

/-- Count++ plus AddCount plus the trace record of one remote call. -/
def recordCall (st : CState) (what : String) (c : RCall) : CState :=
  { st with
    count := st.count + 1
    byCallCounts := natMapInc st.byCallCounts what
    trace := st.trace ++ [c] }

/-- The server returns a fresh sample (fresh id and property-set id). -/
def freshSample (st : CState) (name : String) : MSample × CState :=
  ({ id := st.nextId, propertySetId := st.nextId + 1, name := name },
   { st with nextId := st.nextId + 2 })

/-- The server returns an updated sample carrying a new property-set id
(transform is true on every attachment). -/
def transformedSample (st : CState) (s : MSample) : MSample × CState :=
  ({ s with propertySetId := st.nextId }, { st with nextId := st.nextId + 1 })

/-- The server returns a fresh process. -/
def freshProcess (st : CState) : MProcess × CState :=
  ({ id := st.nextId }, { st with nextId := st.nextId + 1 })

def modifyNode (st : CState) (i : Nat) (f : WorkflowProcess → WorkflowProcess) : CState :=
  { st with nodes := st.nodes.modify i f }

/-- Creater.findSampleInWorksheet: first model sample of the name. -/
def findSampleInWorksheet (sampleName : String) (samples : List Sample) : Option Sample :=
  samples.find? (fun s => s.name = sampleName)

/-- Creater.getInputSamples: concatenate the out lists of the parents, as
they stand right now. -/
def getInputSamples (st : CState) (wp : WorkflowProcess) : List MSample :=
  (wp.fromNodes.map (fun i => (st.nodes.getD i default).out)).flatten

/-- The add-inputs loop of createWorkflowSteps: for every input sample, an
add-sample-and-files call whose returned sample is appended to the node's
out, then an add-measurements call whenever the member sample of that name
exists in the worksheet (the source gates only on its presence, not on it
having any attributes).  The measurement payload built by
createAttributeMeasurements is not modeled: no verified property observes
it. -/
def attachStep (nodeIdx procId : Nat) (ws : Worksheet) (st : CState) (sample : MSample) :
    CState :=
  let worksheetSample := findSampleInWorksheet sample.name ws.samples
  let (s', st) := transformedSample st sample
  let st := recordCall st "addSampleAndFilesToProcess"
    (.addSampleAndFilesToProcess nodeIdx procId sample.id sample.propertySetId)
  let st := modifyNode st nodeIdx (fun n => { n with out := n.out ++ [s'] })
  match worksheetSample with
  | some _ => recordCall st "addMeasurements"
      (.addMeasurementsToSampleInProcess nodeIdx procId s'.id s'.propertySetId)
  | none => st

def processInputs (nodeIdx procId : Nat) (ws : Worksheet) :
    CState → List MSample → CState
  | st, [] => st
  | st, sample :: rest =>
    processInputs nodeIdx procId ws (attachStep nodeIdx procId ws st sample) rest

/-- Creater.createWorkflowSteps as a worklist interpreter.  Go recurses:
materialize the node (create-sample for a root; for an instance node not
yet holding a process, create-process then attach every input sample), then
recursively visit every To child before the node's following sibling.
Prepending a visited node's To children to the worklist yields exactly that
depth-first pre-order, one visit per fuel unit; none renders fuel
exhaustion (the Go recursion diverges on a cyclic graph) or a Go panic (a
node with no member samples dereferences Samples[0]). -/
def rootStep (st : CState) (i : Nat) (s0 : Sample) : CState :=
  let (ms, st) := freshSample st s0.name
  let st := recordCall st "createSample" (.createSample i ms.id)
  modifyNode st i (fun n => { n with out := n.out ++ [ms] })

def instStep (st : CState) (i : Nat) (ws : Worksheet) : CState :=
  let (p, st) := freshProcess st
  let st := recordCall st "createProcessWithAttrs" (.createProcessWithAttrs i p.id)
  let st := modifyNode st i (fun n => { n with process := some p })
  let inputs := getInputSamples st (st.nodes.getD i default)
  processInputs i p.id ws st inputs

def runSteps : Nat → CState → List Nat → Option CState
  | _, st, [] => some st
  | 0, _, _ :: _ => none
  | fuel + 1, st, i :: work =>
    let wp := st.nodes.getD i default
    match wp.worksheet with
    | none =>
      match wp.samples with
      | [] => none
      | s0 :: _ => runSteps fuel (rootStep st i s0) (wp.toNodes ++ work)
    | some ws =>
      match wp.process with
      | some _ => runSteps fuel st (wp.toNodes ++ work)
      | none =>
        match wp.samples with
        | [] => none
        | _ :: _ => runSteps fuel (instStep st i ws) (wp.toNodes ++ work)

/-- Creater.Apply.  expFails models the create-experiment remote call
returning an error: the source then returns nil with nothing else done.  On
the success path the workflow is constructed, every root is walked, and the
in-progress flag is cleared (update-experiment-progress). -/
def CreaterApply (expFails hasParent : Bool) (worksheets : List Worksheet) (fuel : Nat) :
    Option (Option String × CState) :=
  let st0 : CState := { nodes := #[] }
  let st0 := recordCall st0 "createExperiment" .createExperiment
  if expFails then some (none, st0)
  else
    let wf := constructWorkflow hasParent worksheets
    let st := { st0 with nodes := wf.nodes }
    match runSteps fuel st wf.root with
    | none => none
    | some st' =>
      some (none, recordCall st' "updateExperimentProgress" .updateExperimentProgress)

/-! ## Trace observations -/

/-- Number of trace calls satisfying a predicate. -/
def countCalls (tr : List RCall) (p : RCall → Bool) : Nat :=
  (tr.filter p).length

def isCreateSampleCall : RCall → Bool
  | .createSample _ _ => true
  | _ => false

def isCreateProcessCall : RCall → Bool
  | .createProcessWithAttrs _ _ => true
  | _ => false

def isAddSampleCall : RCall → Bool
  | .addSampleAndFilesToProcess _ _ _ _ => true
  | _ => false

def isAddMeasurementsCall : RCall → Bool
  | .addMeasurementsToSampleInProcess _ _ _ _ => true
  | _ => false

/-- The arena index a call was issued for (the experiment-level calls carry
no node). -/
def callNode : RCall → Option Nat
  | .createExperiment => none
  | .updateExperimentProgress => none
  | .createSample i _ => some i
  | .createProcessWithAttrs i _ => some i
  | .addSampleAndFilesToProcess i _ _ _ => some i
  | .addMeasurementsToSampleInProcess i _ _ _ => some i

/-- Calls issued for node i. -/
def issuedBy (i : Nat) (c : RCall) : Bool :=
  callNode c = some i

/-- Calls that create node i's output samples: create-sample for a root,
add-sample-and-files for a process instance. -/
def outputCallOf (i : Nat) : RCall → Bool
  | .createSample j _ => j = i
  | .addSampleAndFilesToProcess j _ _ _ => j = i
  | _ => false

/-- Every call satisfying p sits strictly earlier in the trace than every
call satisfying q. -/
def callsBefore (tr : List RCall) (p q : RCall → Bool) : Prop :=
  ∀ i, (hi : i < tr.length) → ∀ j, (hj : j < tr.length) →
    p (tr.get ⟨i, hi⟩) → q (tr.get ⟨j, hj⟩) → i < j

instance (tr : List RCall) (p q : RCall → Bool) : Decidable (callsBefore tr p q) := by
  unfold callsBefore
  infer_instance

/-- The duplicate-row family for edge wiring: one worksheet whose k rows
are identical copies of the same sample row (same name, empty parent, same
process attribute), which all collapse to a single unique process
instance. -/
def dupRow : Sample :=
  { name := "S", parent := "", row := 2,
    processAttrs := [⟨"Temp", "c", 3, some [("value", Json.num "400")]⟩] }

def dupWorksheet (k : Nat) : Worksheet :=
  { name := "W", index := 1, processAttrs := [⟨"Temp", "c", 3, none⟩],
    samples := List.replicate k dupRow }

def dupWorkflow (k : Nat) : Workflow :=
  constructWorkflow true [dupWorksheet k]

def dupFinal (k : Nat) : Option CState :=
  (CreaterApply false true [dupWorksheet k] (2 * k + 4)).map Prod.snd

/-- The unique key of the duplicate-row family's single process instance. -/
def dupKey : String := makeSampleInstanceKey { HasParent := true } dupRow "W"

/-- The server sample created for the duplicate-row family's one root. -/
def s0dup : MSample := { id := 0, propertySetId := 1, name := "S" }

/-- The creater state right after create-sample and create-process in the
duplicate-row run, parameterized by the duplicate count. -/
def dupSt2 (j : Nat) : CState :=
  ⟨#[{ samples := [dupRow], toNodes := List.replicate (j + 1) 1, out := [s0dup] },
     { worksheet := some (dupWorksheet (j + 1)), key := dupKey, sampleName := "S",
       samples := List.replicate (j + 1) dupRow, fromNodes := List.replicate (j + 1) 0,
       process := some ⟨2⟩ }],
    [.createExperiment, .createSample 0 0, .createProcessWithAttrs 1 2], 3, 3,
    natMapInc (natMapInc [("createExperiment", 1)] "createSample") "createProcessWithAttrs"⟩

/-- The multi-supplier counterexample input: worksheet B holds two rows of
sample S1, one with no parent and one with parent A; worksheet A holds one
parentless row of S1.  Both B rows share B's unique key, so B's instance
node has two suppliers: the S1 root and A's instance node. -/
def cexWsB : Worksheet :=
  { name := "B", index := 1,
    samples := [{ name := "S1", parent := "", row := 2 },
                { name := "S1", parent := "A", row := 3 }] }

def cexWsA : Worksheet :=
  { name := "A", index := 2, samples := [{ name := "S1", parent := "", row := 2 }] }

def cexWorkflow : Workflow :=
  constructWorkflow true [cexWsB, cexWsA]

def cexFinal : Option CState :=
  (CreaterApply false true [cexWsB, cexWsA] 10).map Prod.snd

/-- The consumer node t can be reached in the walk only through s: no other
node of the arena lists t among its To children. -/
def staticUniq (s t : Nat) (st : CState) : Prop :=
  ∀ i, i < st.nodes.size → t ∈ (st.nodes.getD i default).toNodes → i = s

/-- The supplier is either a sample (root) node that no node points to and
that occurs at most once in the worklist, or a process-instance node. -/
def supplierShape (s : Nat) (st : CState) (work : List Nat) : Prop :=
  ((st.nodes.getD s default).worksheet.isNone ∧
    (∀ i, i < st.nodes.size → s ∉ (st.nodes.getD i default).toNodes) ∧
    work.count s ≤ 1) ∨
  (st.nodes.getD s default).worksheet.isSome

/-- All of the supplier's output-creating calls are already in the trace
and no further one can be issued: a root supplier is finished once it has
left the worklist, a process-instance supplier once its process exists. -/
def supplierDone (s : Nat) (st : CState) (work : List Nat) : Prop :=
  ((st.nodes.getD s default).worksheet.isNone ∧ s ∉ work) ∨
  ((st.nodes.getD s default).worksheet.isSome ∧
    (st.nodes.getD s default).process.isSome)

/-- Invariant threaded through the workflow walk for the edge s → t: t is
reachable only through s, the supplier has root or instance shape, t can
stand in the worklist only once the supplier is finished, every supplier
output call already precedes every consumer call, and no consumer call
exists before the supplier is finished. -/
def orderInv (s t : Nat) (st : CState) (work : List Nat) : Prop :=
  staticUniq s t st ∧ supplierShape s st work ∧
  (t ∈ work → supplierDone s st work) ∧
  callsBefore st.trace (outputCallOf s) (issuedBy t) ∧
  (¬ supplierDone s st work → ∀ c ∈ st.trace, issuedBy t c = false)

instance (s t : Nat) (st : CState) : Decidable (staticUniq s t st) := by
  unfold staticUniq
  infer_instance

instance (s : Nat) (st : CState) (work : List Nat) : Decidable (supplierShape s st work) := by
  unfold supplierShape
  infer_instance

instance (s : Nat) (st : CState) (work : List Nat) : Decidable (supplierDone s st work) := by
  unfold supplierDone
  infer_instance

instance (s t : Nat) (st : CState) (work : List Nat) : Decidable (orderInv s t st work) := by
  unfold orderInv
  infer_instance

/-- The final creater state of the single-supplier witness run (one
duplicate row, so the one instance node has exactly the root as supplier). -/
def c1WitnessSt : CState :=
  ((CreaterApply false true [dupWorksheet 1] 6).getD
    (none, ⟨#[], [], 0, 0, []⟩)).2

/-- The unknown-parent sheet of spec scenario S4. -/
def c6Sheet : SheetData :=
  ⟨"W", [["N", "P", "s:A"], ["S", "NoSuch", "1"]]⟩

/-- A keyword lying in at least two of the three keyword sets. -/
def keywordInTwoSets (kw : Keywords) (k : String) : Prop :=
  (k ∈ kw.processAttributeKeywords ∧ k ∈ kw.sampleAttributeKeywords) ∨
  (k ∈ kw.processAttributeKeywords ∧ k ∈ kw.fileAttributeKeywords) ∨
  (k ∈ kw.sampleAttributeKeywords ∧ k ∈ kw.fileAttributeKeywords)

/-- The worksheet of spec scenario S1: three rows sharing the name column
header, a parent column, process attributes Time and Temp and sample
attribute Grain. -/
def heatSheet : SheetData :=
  ⟨"Heat",
   [["Name", "Parent", "p:Time(s)", "p:Temp(c)", "s:Grain(mm)"],
    ["S1", "", "300", "400", "2"],
    ["S2", "", "300", "400", "1"],
    ["S3", "", "500", "50", "1"]]⟩

/-- The Heat worksheet as the loader parses it. -/
def heatWorksheets : List Worksheet :=
  ((Load defaultKeywords true 0 [heatSheet]).map Prod.fst).getD []

/-- The workflow the builder constructs for it. -/
def heatWorkflow : Workflow :=
  constructWorkflow true heatWorksheets

/-- The materializer state after Creater.Apply. -/
def heatFinal : Option CState :=
  (CreaterApply false true heatWorksheets 100).map Prod.snd

/-- Specification-side form of the keyword stripping of cell2NameAndUnit:
trim, then drop through the first colon (when present) and trim again. -/
def specStripped (cell : String) : String :=
  let tc := goTrimSpace cell
  if tc.toList.contains ':' then goTrimSpace ⟨(tc.toList.dropWhile (fun a => a ≠ ':')).drop 1⟩
  else tc

/-- Specification-side text before the first open paren of the stripped
remainder. -/
def specBeforeParen (cell : String) : String :=
  ⟨(specStripped cell).toList.takeWhile (fun a => a ≠ '(')⟩

/-! ## Index lemmas

Bridging strings.Index (charIndex) with membership, takeWhile and
dropWhile, used to relate the parsers to their specifications. -/

theorem charIndex_none_iff (cs : List Char) (c : Char) :
    charIndex cs c = none ↔ c ∉ cs := by
  induction cs with
  | nil => simp [charIndex]
  | cons x xs ih =>
    by_cases hx : x = c
    · simp [charIndex, hx]
    · have hne : c ≠ x := fun h => hx h.symm
      simp only [charIndex, if_neg hx, Option.map_eq_none', ih, List.mem_cons, not_or]
      simp [hne]

theorem charIndex_take : ∀ (cs : List Char) (c : Char) (i : Nat),
    charIndex cs c = some i → cs.take i = cs.takeWhile (fun a => a ≠ c)
  | [], c, i, h => by simp [charIndex] at h
  | x :: xs, c, i, h => by
    by_cases hx : x = c
    · simp [charIndex, hx] at h
      simp [← h, hx]
    · simp [charIndex, hx] at h
      obtain ⟨j, hj, rfl⟩ := h
      simp [List.takeWhile_cons, hx, charIndex_take xs c j hj]

theorem charIndex_drop : ∀ (cs : List Char) (c : Char) (i : Nat),
    charIndex cs c = some i → cs.drop i = cs.dropWhile (fun a => a ≠ c)
  | [], c, i, h => by simp [charIndex] at h
  | x :: xs, c, i, h => by
    by_cases hx : x = c
    · simp [charIndex, hx] at h
      simp [← h, hx]
    · simp [charIndex, hx] at h
      obtain ⟨j, hj, rfl⟩ := h
      simp [List.dropWhile_cons, hx, charIndex_drop xs c j hj]

theorem charIndex_mem_take : ∀ (cs : List Char) (c : Char) (i : Nat),
    charIndex cs c = some i → ∀ k, (c ∈ cs.take k ↔ i < k)
  | [], c, i, h => by simp [charIndex] at h
  | x :: xs, c, i, h => by
    intro k
    by_cases hx : x = c
    · simp [charIndex, hx] at h
      cases k with
      | zero => simp
      | succ m => simp [hx, ← h]
    · simp [charIndex, hx] at h
      obtain ⟨j, hj, rfl⟩ := h
      cases k with
      | zero => simp
      | succ m =>
        have hmt := charIndex_mem_take xs c j hj m
        have hne : c ≠ x := fun h => hx h.symm
        simp only [List.take_succ_cons, List.mem_cons, hmt, hne, false_or]
        omega

theorem charIndex_drop_shift : ∀ (cs : List Char) (c : Char) (i k : Nat),
    charIndex cs c = some i → k ≤ i → charIndex (cs.drop k) c = some (i - k)
  | cs, c, i, 0, h, _ => by simpa using h
  | [], c, i, k + 1, h, hk => by simp [charIndex] at h
  | x :: xs, c, i, k + 1, h, hk => by
    by_cases hx : x = c
    · simp [charIndex, hx] at h
      omega
    · simp [charIndex, hx] at h
      obtain ⟨j, hj, rfl⟩ := h
      simpa using charIndex_drop_shift xs c j k hj (by omega)

theorem charIndex_get : ∀ (cs : List Char) (c : Char) (i : Nat),
    charIndex cs c = some i → ∃ h : i < cs.length, cs.get ⟨i, h⟩ = c
  | [], c, i, h => by simp [charIndex] at h
  | x :: xs, c, i, h => by
    by_cases hx : x = c
    · simp only [charIndex, if_pos hx, Option.some.injEq] at h
      subst h
      exact ⟨Nat.succ_pos _, hx⟩
    · simp [charIndex, hx] at h
      obtain ⟨j, hj, rfl⟩ := h
      obtain ⟨hlt, hget⟩ := charIndex_get xs c j hj
      exact ⟨by simpa using Nat.succ_lt_succ hlt, by simpa using hget⟩

theorem contains_eq_true_iff (l : List Char) (a : Char) : l.contains a = true ↔ a ∈ l :=
  List.elem_iff

theorem contains_eq_false_iff (l : List Char) (a : Char) : l.contains a = false ↔ a ∉ l := by
  constructor
  · intro h hm
    rw [(contains_eq_true_iff l a).mpr hm] at h
    cases h
  · intro hm
    cases h : l.contains a
    · rfl
    · exact absurd ((contains_eq_true_iff l a).mp h) hm

/-! ## Duplicate-row family lemmas (C10) -/

theorem flatten_replicate_singleton (n : Nat) (a : MSample) :
    (List.replicate n [a]).flatten = List.replicate n a := by
  induction n with
  | zero => rfl
  | succ m ih => simp [List.replicate_succ, ih]

/-- Once the name is collected, further duplicate rows collect nothing. -/
theorem dup_collect_skip : ∀ (j : Nat) (ex : List (String × Sample)),
    (ex.lookup "S").isSome = true →
    (List.replicate j dupRow).foldl collectSampleStep ex = ex
  | 0, _, _ => rfl
  | j + 1, ex, h => by
    rw [show List.replicate (j + 1) dupRow = dupRow :: List.replicate j dupRow from rfl,
      List.foldl_cons, show collectSampleStep ex dupRow = if (ex.lookup "S").isSome then ex
        else ex ++ [("S", dupRow)] from rfl, if_pos h]
    exact dup_collect_skip j ex h

/-- Root discovery on the duplicate-row worksheet: one root node. -/
theorem dup_pass1 (j : Nat) :
    createSampleProcesses { HasParent := true } [dupWorksheet (j + 1)] =
      { nodes := #[{ samples := [dupRow] }], root := [0],
        existingSamples := [("S", dupRow)], HasParent := true } := by
  unfold createSampleProcesses
  rw [show ([dupWorksheet (j + 1)] : List Worksheet).foldl
      (fun ex ws => ws.samples.foldl collectSampleStep ex) ({HasParent := true} : Workflow).existingSamples =
      (List.replicate (j + 1) dupRow).foldl collectSampleStep [] from rfl]
  rw [show List.replicate (j + 1) dupRow = dupRow :: List.replicate j dupRow from rfl,
    List.foldl_cons]
  rw [show collectSampleStep [] dupRow = [("S", dupRow)] from rfl]
  rw [dup_collect_skip j [("S", dupRow)] rfl]
  rfl

/-- Unique-instance discovery: further duplicate rows only append member
samples to the one instance node. -/
theorem dup_pass2_append (k : Nat) : ∀ (j : Nat) (n0 n1 : WorkflowProcess),
    (List.replicate j dupRow).foldl (uniqueProcessStep (dupWorksheet k))
      { nodes := #[n0, n1], root := [0], existingSamples := [("S", dupRow)],
        uniqueProcessInstances := [(dupKey, 1)], HasParent := true } =
      { nodes := #[n0, { n1 with samples := n1.samples ++ List.replicate j dupRow }],
        root := [0], existingSamples := [("S", dupRow)],
        uniqueProcessInstances := [(dupKey, 1)], HasParent := true }
  | 0, n0, n1 => by simp
  | j + 1, n0, n1 => by
    rw [show List.replicate (j + 1) dupRow = dupRow :: List.replicate j dupRow from rfl,
      List.foldl_cons]
    rw [show uniqueProcessStep (dupWorksheet k)
        { nodes := #[n0, n1], root := [0], existingSamples := [("S", dupRow)],
          uniqueProcessInstances := [(dupKey, 1)], HasParent := true } dupRow =
        { nodes := #[n0, { n1 with samples := n1.samples ++ [dupRow] }], root := [0],
          existingSamples := [("S", dupRow)],
          uniqueProcessInstances := [(dupKey, 1)], HasParent := true } from rfl]
    rw [dup_pass2_append k j n0 { n1 with samples := n1.samples ++ [dupRow] }]
    simp [List.append_assoc]

/-- Edge wiring: every duplicate row appends one more root-to-instance
edge pair, with no deduplication. -/
theorem dup_pass3_wire (k : Nat) (wss : List Worksheet) : ∀ (j : Nat) (ts : List Nat)
    (n1 : WorkflowProcess),
    (List.replicate j dupRow).foldl (wireupStep wss (dupWorksheet k))
      { nodes := #[{ samples := [dupRow], toNodes := ts }, n1], root := [0],
        existingSamples := [("S", dupRow)], uniqueProcessInstances := [(dupKey, 1)],
        HasParent := true } =
      { nodes := #[{ samples := [dupRow], toNodes := ts ++ List.replicate j 1 },
                   { n1 with fromNodes := n1.fromNodes ++ List.replicate j 0 }],
        root := [0], existingSamples := [("S", dupRow)],
        uniqueProcessInstances := [(dupKey, 1)], HasParent := true }
  | 0, ts, n1 => by simp
  | j + 1, ts, n1 => by
    rw [show List.replicate (j + 1) dupRow = dupRow :: List.replicate j dupRow from rfl,
      List.foldl_cons]
    rw [show wireupStep wss (dupWorksheet k)
        { nodes := #[{ samples := [dupRow], toNodes := ts }, n1], root := [0],
          existingSamples := [("S", dupRow)], uniqueProcessInstances := [(dupKey, 1)],
          HasParent := true } dupRow =
        { nodes := #[{ samples := [dupRow], toNodes := ts ++ [1] },
                     { n1 with fromNodes := n1.fromNodes ++ [0] }], root := [0],
          existingSamples := [("S", dupRow)], uniqueProcessInstances := [(dupKey, 1)],
          HasParent := true } from rfl]
    rw [dup_pass3_wire k wss j (ts ++ [1]) { n1 with fromNodes := n1.fromNodes ++ [0] }]
    simp [List.append_assoc, List.replicate_succ]

/-- The workflow the builder constructs for the duplicate-row family. -/
theorem dup_built (j : Nat) :
    constructWorkflow true [dupWorksheet (j + 1)] =
      { nodes := #[{ samples := [dupRow], toNodes := List.replicate (j + 1) 1 },
                   { worksheet := some (dupWorksheet (j + 1)), key := dupKey,
                     sampleName := "S", samples := List.replicate (j + 1) dupRow,
                     fromNodes := List.replicate (j + 1) 0 }],
        root := [0], existingSamples := [("S", dupRow)],
        uniqueProcessInstances := [(dupKey, 1)], HasParent := true } := by
  simp only [constructWorkflow]
  rw [dup_pass1 j]
  unfold createUniqueProcessesMap
  rw [List.foldl_cons, List.foldl_nil]
  rw [show (dupWorksheet (j + 1)).samples = dupRow :: List.replicate j dupRow from rfl,
    List.foldl_cons]
  rw [show uniqueProcessStep (dupWorksheet (j + 1))
      { nodes := #[{ samples := [dupRow] }], root := [0],
        existingSamples := [("S", dupRow)], HasParent := true } dupRow =
      { nodes := #[{ samples := [dupRow] },
                   { worksheet := some (dupWorksheet (j + 1)), key := dupKey,
                     sampleName := "S", samples := [dupRow] }], root := [0],
        existingSamples := [("S", dupRow)],
        uniqueProcessInstances := [(dupKey, 1)], HasParent := true } from rfl]
  rw [dup_pass2_append (j + 1) j]
  unfold wireupWorkflow
  rw [List.foldl_cons, List.foldl_nil]
  rw [show (dupWorksheet (j + 1)).samples = List.replicate (j + 1) dupRow from rfl]
  rw [dup_pass3_wire (j + 1) [dupWorksheet (j + 1)] (j + 1) []]
  simp [List.replicate_succ]

/-- The attach loop on j duplicate input samples: j add-sample calls, all
for the same input sample (id 0, property set 1). -/
theorem dup_inputs (k : Nat) : ∀ (j : Nat) (n0 n1 : WorkflowProcess) (tr : List RCall)
    (m cnt : Nat) (bcc : List (String × Nat)),
    ∃ out' m' cnt' bcc' Δ,
      processInputs 1 2 (dupWorksheet (k + 1)) ⟨#[n0, n1], tr, m, cnt, bcc⟩
        (List.replicate j s0dup) =
        ⟨#[n0, { n1 with out := n1.out ++ out' }], tr ++ Δ, m', cnt', bcc'⟩ ∧
      Δ.filter isAddSampleCall =
        List.replicate j (.addSampleAndFilesToProcess 1 2 0 1) := by
  intro j
  induction j with
  | zero =>
    intro n0 n1 tr m cnt bcc
    refine ⟨[], m, cnt, bcc, [], ?_, rfl⟩
    simp
    rfl
  | succ i ih =>
    intro n0 n1 tr m cnt bcc
    rw [show List.replicate (i + 1) s0dup = s0dup :: List.replicate i s0dup from rfl]
    rw [show processInputs 1 2 (dupWorksheet (k + 1)) ⟨#[n0, n1], tr, m, cnt, bcc⟩
        (s0dup :: List.replicate i s0dup) =
      processInputs 1 2 (dupWorksheet (k + 1))
        ⟨#[n0, { n1 with out := n1.out ++ [{ id := 0, propertySetId := m, name := "S" }] }],
          (tr ++ [.addSampleAndFilesToProcess 1 2 0 1]) ++
            [.addMeasurementsToSampleInProcess 1 2 0 m],
          m + 1, cnt + 1 + 1,
          natMapInc (natMapInc bcc "addSampleAndFilesToProcess") "addMeasurements"⟩
        (List.replicate i s0dup) from rfl]
    obtain ⟨out', m', cnt', bcc', Δ', heq, hfil⟩ := ih n0 _ _ _ _ _
    refine ⟨{ id := 0, propertySetId := m, name := "S" } :: out', m', cnt', bcc',
      .addSampleAndFilesToProcess 1 2 0 1 :: .addMeasurementsToSampleInProcess 1 2 0 m :: Δ',
      ?_, ?_⟩
    · rw [heq]
      simp [List.append_assoc]
    · simp [List.filter_cons, isAddSampleCall, hfil, List.replicate_succ]

/-- Revisits of the already-materialized instance node are no-ops. -/
theorem dup_revisits : ∀ (j : Nat) (fuel : Nat) (st : CState) (w : Worksheet) (p : MProcess),
    j ≤ fuel →
    (st.nodes.getD 1 default).worksheet = some w →
    (st.nodes.getD 1 default).process = some p →
    (st.nodes.getD 1 default).toNodes = [] →
    runSteps fuel st (List.replicate j 1) = some st := by
  intro j
  induction j with
  | zero =>
    intro fuel st w p _ _ _ _
    cases fuel <;> rfl
  | succ i ih =>
    intro fuel st w p hle hw hp ht
    obtain ⟨f, rfl⟩ : ∃ f, fuel = f + 1 := ⟨fuel - 1, by omega⟩
    rw [show List.replicate (i + 1) 1 = 1 :: List.replicate i 1 from rfl]
    conv_lhs => rw [runSteps.eq_def]
    dsimp only
    rw [hw]
    dsimp only
    rw [hp]
    rw [ht]
    simp only [List.nil_append]
    exact ih f st w p (by omega) hw hp ht

/-! ## Ordering-invariant lemmas (C1) -/

theorem getD_default_of_ge {a : Array WorkflowProcess} {i : Nat} (h : a.size ≤ i) :
    a.getD i default = default := by
  unfold Array.getD
  rw [dif_neg (by omega)]

theorem lt_of_ws_some {a : Array WorkflowProcess} {i : Nat} {w : Worksheet}
    (h : (a.getD i default).worksheet = some w) : i < a.size := by
  by_contra hlt
  rw [getD_default_of_ge (by omega)] at h
  exact Option.noConfusion h

theorem lt_of_samples_cons {a : Array WorkflowProcess} {i : Nat} {s0 : Sample}
    {ss : List Sample} (h : (a.getD i default).samples = s0 :: ss) : i < a.size := by
  by_contra hlt
  rw [getD_default_of_ge (by omega)] at h
  exact List.noConfusion h

theorem getD_modify_eq {a : Array WorkflowProcess} {i : Nat}
    (f : WorkflowProcess → WorkflowProcess) (h : i < a.size) :
    (a.modify i f).getD i default = f (a.getD i default) := by
  unfold Array.getD
  rw [dif_pos (by rw [Array.size_modify]; exact h), dif_pos h]
  rw [Array.get_eq_getElem, Array.get_eq_getElem, Array.getElem_modify]
  rw [if_pos rfl]

theorem getD_modify_ne {a : Array WorkflowProcess} {i j : Nat}
    (f : WorkflowProcess → WorkflowProcess) (h : j ≠ i) :
    (a.modify i f).getD j default = a.getD j default := by
  unfold Array.getD
  by_cases hj : j < a.size
  · rw [dif_pos (by rw [Array.size_modify]; exact hj), dif_pos hj]
    rw [Array.get_eq_getElem, Array.get_eq_getElem, Array.getElem_modify]
    rw [if_neg (fun hh => h hh.symm)]
  · rw [dif_neg (by rw [Array.size_modify]; exact hj), dif_neg hj]

theorem getD_modify_proj {α : Type} (proj : WorkflowProcess → α)
    {a : Array WorkflowProcess} {i j : Nat} {f : WorkflowProcess → WorkflowProcess}
    (hf : ∀ n, proj (f n) = proj n) :
    proj ((a.modify i f).getD j default) = proj (a.getD j default) := by
  by_cases hj : j = i
  · subst hj
    by_cases hlt : j < a.size
    · rw [getD_modify_eq f hlt, hf]
    · have h1 : a.size ≤ j := by omega
      have h2 : (a.modify j f).size ≤ j := by rw [Array.size_modify]; omega
      rw [getD_default_of_ge h2, getD_default_of_ge h1]
  · rw [getD_modify_ne f hj]

theorem outputCallOf_node {s : Nat} {c : RCall} (h : outputCallOf s c = true) :
    callNode c = some s := by
  cases c <;> simp [outputCallOf, callNode] at h ⊢ <;> omega

theorem issuedBy_node {t : Nat} {c : RCall} (h : issuedBy t c = true) :
    callNode c = some t := by
  simp [issuedBy] at h
  exact h

theorem outputCallOf_false_of_node {s i : Nat} {c : RCall}
    (hc : callNode c = some i) (h : i ≠ s) : outputCallOf s c = false := by
  cases hb : outputCallOf s c
  · rfl
  · rw [outputCallOf_node hb] at hc
    exact absurd (Option.some.inj hc).symm h

theorem issuedBy_false_of_node {t i : Nat} {c : RCall}
    (hc : callNode c = some i) (h : i ≠ t) : issuedBy t c = false := by
  cases hb : issuedBy t c
  · rfl
  · rw [issuedBy_node hb] at hc
    exact absurd (Option.some.inj hc).symm h

theorem callsBefore_of_no_q {tr : List RCall} {p q : RCall → Bool}
    (h : ∀ c ∈ tr, q c = false) : callsBefore tr p q := by
  intro i hi j hj hp hq
  rw [h _ (tr.get_mem j hj)] at hq
  exact Bool.noConfusion hq

theorem callsBefore_append_q {tr Δ : List RCall} {p q : RCall → Bool}
    (h : callsBefore tr p q) (hp : ∀ c ∈ Δ, p c = false) :
    callsBefore (tr ++ Δ) p q := by
  intro i hi j hj hpi hqj
  have hlen : (tr ++ Δ).length = tr.length + Δ.length := List.length_append tr Δ
  by_cases hic : i < tr.length
  · by_cases hjc : j < tr.length
    · have ei : (tr ++ Δ).get ⟨i, hi⟩ = tr.get ⟨i, hic⟩ := by
        rw [List.get_eq_getElem, List.get_eq_getElem]
        exact List.getElem_append_left hic
      have ej : (tr ++ Δ).get ⟨j, hj⟩ = tr.get ⟨j, hjc⟩ := by
        rw [List.get_eq_getElem, List.get_eq_getElem]
        exact List.getElem_append_left hjc
      exact h i hic j hjc (ei ▸ hpi) (ej ▸ hqj)
    · omega
  · exfalso
    have hi2 : i - tr.length < Δ.length := by omega
    have ei : (tr ++ Δ).get ⟨i, hi⟩ = Δ.get ⟨i - tr.length, hi2⟩ := by
      rw [List.get_eq_getElem, List.get_eq_getElem]
      exact List.getElem_append_right (Nat.le_of_not_lt hic)
    rw [ei, hp _ (Δ.get_mem (i - tr.length) hi2)] at hpi
    exact Bool.noConfusion hpi

theorem count_le_of_cons {s i : Nat} {rest : List Nat}
    (h : (i :: rest).count s ≤ 1) : rest.count s ≤ 1 := by
  rw [List.count_cons] at h
  split at h <;> omega

theorem not_mem_of_count_cons_self {s : Nat} {rest : List Nat}
    (h : (s :: rest).count s ≤ 1) : s ∉ rest := by
  rw [List.count_cons_self] at h
  exact List.count_eq_zero.mp (by omega)

theorem isNone_isSome_absurd {o : Option Worksheet} (h : o.isNone = true)
    (h2 : o.isSome = true) : False := by
  rw [Option.isNone_iff_eq_none.mp h] at h2
  simp at h2

/-- One attach iteration appends one or two calls, all for the attaching
node, and touches no node field other than the node's out list. -/
theorem attachStep_effect (nodeIdx procId : Nat) (ws : Worksheet) (st : CState)
    (a : MSample) :
    ∃ Δ, (attachStep nodeIdx procId ws st a).trace = st.trace ++ Δ ∧
      (∀ c ∈ Δ, callNode c = some nodeIdx) ∧
      (∀ j, ((attachStep nodeIdx procId ws st a).nodes.getD j default).toNodes =
          (st.nodes.getD j default).toNodes ∧
        ((attachStep nodeIdx procId ws st a).nodes.getD j default).worksheet =
          (st.nodes.getD j default).worksheet ∧
        ((attachStep nodeIdx procId ws st a).nodes.getD j default).process =
          (st.nodes.getD j default).process) ∧
      (attachStep nodeIdx procId ws st a).nodes.size = st.nodes.size := by
  cases hfind : findSampleInWorksheet a.name ws.samples with
  | none =>
    refine ⟨[.addSampleAndFilesToProcess nodeIdx procId a.id a.propertySetId],
      ?_, ?_, ?_, ?_⟩
    · unfold attachStep
      dsimp only [transformedSample]
      rw [hfind]
      rfl
    · intro c hc
      rw [List.mem_singleton.mp hc]
      rfl
    · intro j
      unfold attachStep
      dsimp only [transformedSample]
      rw [hfind]
      exact ⟨getD_modify_proj _ (fun n => rfl), getD_modify_proj _ (fun n => rfl),
        getD_modify_proj _ (fun n => rfl)⟩
    · unfold attachStep
      dsimp only [transformedSample]
      rw [hfind]
      exact Array.size_modify _ _ _
  | some wsamp =>
    refine ⟨[.addSampleAndFilesToProcess nodeIdx procId a.id a.propertySetId,
        .addMeasurementsToSampleInProcess nodeIdx procId a.id st.nextId],
      ?_, ?_, ?_, ?_⟩
    · unfold attachStep
      dsimp only [transformedSample]
      rw [hfind]
      show (st.trace ++
          [.addSampleAndFilesToProcess nodeIdx procId a.id a.propertySetId]) ++
          [.addMeasurementsToSampleInProcess nodeIdx procId a.id st.nextId] = _
      rw [List.append_assoc]
      rfl
    · intro c hc
      rcases List.mem_cons.mp hc with h | h
      · rw [h]
        rfl
      · rw [List.mem_singleton.mp h]
        rfl
    · intro j
      unfold attachStep
      dsimp only [transformedSample]
      rw [hfind]
      exact ⟨getD_modify_proj _ (fun n => rfl), getD_modify_proj _ (fun n => rfl),
        getD_modify_proj _ (fun n => rfl)⟩
    · unfold attachStep
      dsimp only [transformedSample]
      rw [hfind]
      exact Array.size_modify _ _ _

/-- The whole attach loop appends only calls for the attaching node and
preserves every node's toNodes, worksheet and process fields. -/
theorem processInputs_effect (nodeIdx procId : Nat) (ws : Worksheet) :
    ∀ (inputs : List MSample) (st : CState),
    ∃ Δ, (processInputs nodeIdx procId ws st inputs).trace = st.trace ++ Δ ∧
      (∀ c ∈ Δ, callNode c = some nodeIdx) ∧
      (∀ j, ((processInputs nodeIdx procId ws st inputs).nodes.getD j default).toNodes =
          (st.nodes.getD j default).toNodes ∧
        ((processInputs nodeIdx procId ws st inputs).nodes.getD j default).worksheet =
          (st.nodes.getD j default).worksheet ∧
        ((processInputs nodeIdx procId ws st inputs).nodes.getD j default).process =
          (st.nodes.getD j default).process) ∧
      (processInputs nodeIdx procId ws st inputs).nodes.size = st.nodes.size := by
  intro inputs
  induction inputs with
  | nil =>
    intro st
    exact ⟨[], (List.append_nil _).symm, by simp, fun j => ⟨rfl, rfl, rfl⟩, rfl⟩
  | cons a rest ih =>
    intro st
    obtain ⟨d1, e1, n1, p1, s1⟩ := attachStep_effect nodeIdx procId ws st a
    obtain ⟨d2, e2, n2, p2, s2⟩ := ih (attachStep nodeIdx procId ws st a)
    refine ⟨d1 ++ d2, ?_, ?_, ?_, ?_⟩
    · have e2' : (processInputs nodeIdx procId ws st (a :: rest)).trace =
          (attachStep nodeIdx procId ws st a).trace ++ d2 := e2
      rw [e2', e1, List.append_assoc]
    · intro c hc
      rcases List.mem_append.mp hc with h | h
      · exact n1 c h
      · exact n2 c h
    · intro j
      obtain ⟨t1, w1, pr1⟩ := p1 j
      obtain ⟨t2, w2, pr2⟩ := p2 j
      exact ⟨t2.trans t1, w2.trans w1, pr2.trans pr1⟩
    · exact s2.trans s1

/-- The root visit appends exactly the create-sample call for the node and
touches no node field other than the node's out list. -/
theorem rootStep_effect (st : CState) (i : Nat) (s0 : Sample) :
    (rootStep st i s0).trace = st.trace ++ [.createSample i st.nextId] ∧
    (∀ j, ((rootStep st i s0).nodes.getD j default).toNodes =
        (st.nodes.getD j default).toNodes ∧
      ((rootStep st i s0).nodes.getD j default).worksheet =
        (st.nodes.getD j default).worksheet ∧
      ((rootStep st i s0).nodes.getD j default).process =
        (st.nodes.getD j default).process) ∧
    (rootStep st i s0).nodes.size = st.nodes.size := by
  refine ⟨rfl, fun j => ⟨getD_modify_proj _ (fun n => rfl),
    getD_modify_proj _ (fun n => rfl), getD_modify_proj _ (fun n => rfl)⟩,
    Array.size_modify _ _ _⟩

/-- The instance visit appends the create-process call and attach calls,
all for the node; it preserves every node's toNodes and worksheet, touches
no other node's process, and leaves the node with a process. -/
theorem instStep_effect (st : CState) (i : Nat) (w : Worksheet) :
    ∃ Δ, (instStep st i w).trace = st.trace ++ Δ ∧
      (∀ c ∈ Δ, callNode c = some i) ∧
      (∀ j, ((instStep st i w).nodes.getD j default).toNodes =
          (st.nodes.getD j default).toNodes ∧
        ((instStep st i w).nodes.getD j default).worksheet =
          (st.nodes.getD j default).worksheet ∧
        (j ≠ i → ((instStep st i w).nodes.getD j default).process =
          (st.nodes.getD j default).process)) ∧
      (i < st.nodes.size → ((instStep st i w).nodes.getD i default).process.isSome) ∧
      (instStep st i w).nodes.size = st.nodes.size := by
  obtain ⟨d2, e2, n2, p2, s2⟩ := processInputs_effect i st.nextId w
    (getInputSamples (modifyNode
      (recordCall { st with nextId := st.nextId + 1 } "createProcessWithAttrs"
        (.createProcessWithAttrs i st.nextId)) i
      (fun n => { n with process := some ⟨st.nextId⟩ })) ((modifyNode
      (recordCall { st with nextId := st.nextId + 1 } "createProcessWithAttrs"
        (.createProcessWithAttrs i st.nextId)) i
      (fun n => { n with process := some ⟨st.nextId⟩ })).nodes.getD i default))
    (modifyNode
      (recordCall { st with nextId := st.nextId + 1 } "createProcessWithAttrs"
        (.createProcessWithAttrs i st.nextId)) i
      (fun n => { n with process := some ⟨st.nextId⟩ }))
  refine ⟨.createProcessWithAttrs i st.nextId :: d2, ?_, ?_, ?_, ?_, ?_⟩
  · have e2' : (instStep st i w).trace =
        (st.trace ++ [.createProcessWithAttrs i st.nextId]) ++ d2 := e2
    rw [e2', List.append_assoc]
    rfl
  · intro c hc
    rcases List.mem_cons.mp hc with h | h
    · rw [h]
      rfl
    · exact n2 c h
  · intro j
    obtain ⟨t2, w2, pr2⟩ := p2 j
    have t2' : ((instStep st i w).nodes.getD j default).toNodes =
        ((st.nodes.modify i (fun n => { n with process := some ⟨st.nextId⟩ })).getD
          j default).toNodes := t2
    have w2' : ((instStep st i w).nodes.getD j default).worksheet =
        ((st.nodes.modify i (fun n => { n with process := some ⟨st.nextId⟩ })).getD
          j default).worksheet := w2
    have pr2' : ((instStep st i w).nodes.getD j default).process =
        ((st.nodes.modify i (fun n => { n with process := some ⟨st.nextId⟩ })).getD
          j default).process := pr2
    refine ⟨t2'.trans (getD_modify_proj _ (fun n => rfl)),
      w2'.trans (getD_modify_proj _ (fun n => rfl)), fun hij => ?_⟩
    rw [pr2', getD_modify_ne _ hij]
  · intro hi
    obtain ⟨t2, w2, pr2⟩ := p2 i
    have pr2' : ((instStep st i w).nodes.getD i default).process =
        ((st.nodes.modify i (fun n => { n with process := some ⟨st.nextId⟩ })).getD
          i default).process := pr2
    rw [pr2', getD_modify_eq _ hi]
    rfl
  · exact s2.trans (Array.size_modify _ _ _)

/-- A root visit preserves the ordering invariant. -/
theorem orderInv_root (s t i : Nat) (hst : s ≠ t) (st : CState) (rest : List Nat)
    (s0 : Sample) (ss : List Sample)
    (hws : (st.nodes.getD i default).worksheet = none)
    (hsm : (st.nodes.getD i default).samples = s0 :: ss)
    (hinv : orderInv s t st (i :: rest)) :
    orderInv s t (rootStep st i s0) ((st.nodes.getD i default).toNodes ++ rest) := by
  obtain ⟨huniq, hshape, hdone, hbefore, hnotr⟩ := hinv
  obtain ⟨htr, hpres, hsize⟩ := rootStep_effect st i s0
  have hi : i < st.nodes.size := lt_of_samples_cons hsm
  have hmono : supplierDone s st (i :: rest) →
      supplierDone s (rootStep st i s0) ((st.nodes.getD i default).toNodes ++ rest) := by
    rintro (⟨hn, hnin⟩ | ⟨hsome, hpr⟩)
    · left
      refine ⟨by rw [(hpres s).2.1]; exact hn, ?_⟩
      intro hmem
      rcases List.mem_append.mp hmem with hmem | hmem
      · rcases hshape with ⟨_, hnto, _⟩ | hws_some
        · exact hnto i hi hmem
        · exact isNone_isSome_absurd hn hws_some
      · exact hnin (List.mem_cons_of_mem i hmem)
    · right
      exact ⟨by rw [(hpres s).2.1]; exact hsome, by rw [(hpres s).2.2]; exact hpr⟩
  refine ⟨?_, ?_, ?_, ?_, ?_⟩
  · intro j hj hjm
    rw [hsize] at hj
    rw [(hpres j).1] at hjm
    exact huniq j hj hjm
  · rcases hshape with ⟨hn, hnto, hcnt⟩ | hws_some
    · left
      refine ⟨by rw [(hpres s).2.1]; exact hn, ?_, ?_⟩
      · intro j hj hjm
        rw [hsize] at hj
        rw [(hpres j).1] at hjm
        exact hnto j hj hjm
      · rw [List.count_append]
        have h0 := List.count_eq_zero.mpr (hnto i hi)
        have h1 := count_le_of_cons hcnt
        omega
    · right
      rw [(hpres s).2.1]
      exact hws_some
  · intro htmem
    rcases List.mem_append.mp htmem with hmem | hmem
    · have his : i = s := huniq i hi hmem
      subst his
      rcases hshape with ⟨hn, hnto, hcnt⟩ | hws_some
      · left
        refine ⟨by rw [(hpres i).2.1, hws]; rfl, ?_⟩
        intro hmem2
        rcases List.mem_append.mp hmem2 with h3 | h3
        · exact hnto i hi h3
        · exact not_mem_of_count_cons_self hcnt h3
      · rw [hws] at hws_some
        exact absurd hws_some (by simp)
    · exact hmono (hdone (List.mem_cons_of_mem i hmem))
  · rw [htr]
    by_cases his : i = s
    · subst his
      have hnd : ¬ supplierDone i st (i :: rest) := by
        rintro (⟨hn, hnin⟩ | ⟨hsome, _⟩)
        · exact hnin (List.mem_cons_self i rest)
        · rw [hws] at hsome
          exact absurd hsome (by simp)
      apply callsBefore_of_no_q
      intro c hc
      rcases List.mem_append.mp hc with h3 | h3
      · exact hnotr hnd c h3
      · rw [List.mem_singleton.mp h3]
        exact issuedBy_false_of_node rfl hst
    · apply callsBefore_append_q hbefore
      intro c hc
      rw [List.mem_singleton.mp hc]
      exact outputCallOf_false_of_node rfl his
  · intro hnd2 c hc
    have hnd : ¬ supplierDone s st (i :: rest) := fun hd => hnd2 (hmono hd)
    rw [htr] at hc
    rcases List.mem_append.mp hc with h3 | h3
    · exact hnotr hnd c h3
    · have hit : i ≠ t := by
        intro h
        exact hnd (hdone (h ▸ List.mem_cons_self i rest))
      rw [List.mem_singleton.mp h3]
      exact issuedBy_false_of_node rfl hit

/-- A revisit of an already materialized instance node preserves the
ordering invariant. -/
theorem orderInv_skip (s t i : Nat) (st : CState) (rest : List Nat)
    (w : Worksheet) (p : MProcess)
    (hws : (st.nodes.getD i default).worksheet = some w)
    (hproc : (st.nodes.getD i default).process = some p)
    (hinv : orderInv s t st (i :: rest)) :
    orderInv s t st ((st.nodes.getD i default).toNodes ++ rest) := by
  obtain ⟨huniq, hshape, hdone, hbefore, hnotr⟩ := hinv
  have hi : i < st.nodes.size := lt_of_ws_some hws
  have hmono : supplierDone s st (i :: rest) →
      supplierDone s st ((st.nodes.getD i default).toNodes ++ rest) := by
    rintro (⟨hn, hnin⟩ | ⟨hsome, hpr⟩)
    · left
      refine ⟨hn, ?_⟩
      intro hmem
      rcases List.mem_append.mp hmem with hmem | hmem
      · rcases hshape with ⟨_, hnto, _⟩ | hws_some
        · exact hnto i hi hmem
        · exact isNone_isSome_absurd hn hws_some
      · exact hnin (List.mem_cons_of_mem i hmem)
    · right
      exact ⟨hsome, hpr⟩
  refine ⟨huniq, ?_, ?_, hbefore, ?_⟩
  · rcases hshape with ⟨hn, hnto, hcnt⟩ | hws_some
    · left
      refine ⟨hn, hnto, ?_⟩
      rw [List.count_append]
      have h0 := List.count_eq_zero.mpr (hnto i hi)
      have h1 := count_le_of_cons hcnt
      omega
    · right
      exact hws_some
  · intro htmem
    rcases List.mem_append.mp htmem with hmem | hmem
    · have his : i = s := huniq i hi hmem
      subst his
      right
      exact ⟨by rw [hws]; rfl, by rw [hproc]; rfl⟩
    · exact hmono (hdone (List.mem_cons_of_mem i hmem))
  · intro hnd2 c hc
    exact hnotr (fun hd => hnd2 (hmono hd)) c hc

/-- A first visit of an instance node preserves the ordering invariant. -/
theorem orderInv_inst (s t i : Nat) (hst : s ≠ t) (st : CState) (rest : List Nat)
    (w : Worksheet)
    (hws : (st.nodes.getD i default).worksheet = some w)
    (hproc : (st.nodes.getD i default).process = none)
    (hinv : orderInv s t st (i :: rest)) :
    orderInv s t (instStep st i w) ((st.nodes.getD i default).toNodes ++ rest) := by
  obtain ⟨huniq, hshape, hdone, hbefore, hnotr⟩ := hinv
  obtain ⟨d, htr, hd, hpres, hprocSome, hsize⟩ := instStep_effect st i w
  have hi : i < st.nodes.size := lt_of_ws_some hws
  have hmono : supplierDone s st (i :: rest) →
      supplierDone s (instStep st i w) ((st.nodes.getD i default).toNodes ++ rest) := by
    rintro (⟨hn, hnin⟩ | ⟨hsome, hpr⟩)
    · left
      refine ⟨by rw [(hpres s).2.1]; exact hn, ?_⟩
      intro hmem
      rcases List.mem_append.mp hmem with hmem | hmem
      · rcases hshape with ⟨_, hnto, _⟩ | hws_some
        · exact hnto i hi hmem
        · exact isNone_isSome_absurd hn hws_some
      · exact hnin (List.mem_cons_of_mem i hmem)
    · right
      have hsi : s ≠ i := by
        intro h
        rw [h, hproc] at hpr
        exact Bool.noConfusion hpr
      refine ⟨by rw [(hpres s).2.1]; exact hsome, ?_⟩
      rw [(hpres s).2.2 hsi]
      exact hpr
  refine ⟨?_, ?_, ?_, ?_, ?_⟩
  · intro j hj hjm
    rw [hsize] at hj
    rw [(hpres j).1] at hjm
    exact huniq j hj hjm
  · rcases hshape with ⟨hn, hnto, hcnt⟩ | hws_some
    · left
      refine ⟨by rw [(hpres s).2.1]; exact hn, ?_, ?_⟩
      · intro j hj hjm
        rw [hsize] at hj
        rw [(hpres j).1] at hjm
        exact hnto j hj hjm
      · rw [List.count_append]
        have h0 := List.count_eq_zero.mpr (hnto i hi)
        have h1 := count_le_of_cons hcnt
        omega
    · right
      rw [(hpres s).2.1]
      exact hws_some
  · intro htmem
    rcases List.mem_append.mp htmem with hmem | hmem
    · have his : i = s := huniq i hi hmem
      subst his
      right
      exact ⟨by rw [(hpres i).2.1, hws]; rfl, hprocSome hi⟩
    · exact hmono (hdone (List.mem_cons_of_mem i hmem))
  · rw [htr]
    by_cases his : i = s
    · subst his
      have hnd : ¬ supplierDone i st (i :: rest) := by
        rintro (⟨hn, hnin⟩ | ⟨_, hpr⟩)
        · exact hnin (List.mem_cons_self i rest)
        · rw [hproc] at hpr
          exact Bool.noConfusion hpr
      apply callsBefore_of_no_q
      intro c hc
      rcases List.mem_append.mp hc with h3 | h3
      · exact hnotr hnd c h3
      · exact issuedBy_false_of_node (hd c h3) hst
    · apply callsBefore_append_q hbefore
      intro c hc
      exact outputCallOf_false_of_node (hd c hc) his
  · intro hnd2 c hc
    have hnd : ¬ supplierDone s st (i :: rest) := fun hdn => hnd2 (hmono hdn)
    rw [htr] at hc
    rcases List.mem_append.mp hc with h3 | h3
    · exact hnotr hnd c h3
    · have hit : i ≠ t := by
        intro h
        exact hnd (hdone (h ▸ List.mem_cons_self i rest))
      exact issuedBy_false_of_node (hd c h3) hit

/-- The walk keeps every supplier-before-consumer guarantee expressed by
the ordering invariant. -/
theorem runSteps_order (s t : Nat) (hst : s ≠ t) :
    ∀ (fuel : Nat) (work : List Nat) (st stF : CState),
    runSteps fuel st work = some stF → orderInv s t st work →
    callsBefore stF.trace (outputCallOf s) (issuedBy t) := by
  intro fuel
  induction fuel with
  | zero =>
    intro work st stF hrun hinv
    cases work with
    | nil =>
      have h : st = stF := Option.some.inj hrun
      exact h ▸ hinv.2.2.2.1
    | cons i rest => exact Option.noConfusion hrun
  | succ f ih =>
    intro work st stF hrun hinv
    cases work with
    | nil =>
      have h : st = stF := Option.some.inj hrun
      exact h ▸ hinv.2.2.2.1
    | cons i rest =>
      rw [runSteps.eq_def] at hrun
      dsimp only at hrun
      rcases hws : (st.nodes.getD i default).worksheet with _ | w
      · rw [hws] at hrun
        dsimp only at hrun
        rcases hsm : (st.nodes.getD i default).samples with _ | ⟨s0, ss⟩
        · rw [hsm] at hrun
          dsimp only at hrun
          exact Option.noConfusion hrun
        · rw [hsm] at hrun
          dsimp only at hrun
          exact ih _ _ _ hrun (orderInv_root s t i hst st rest s0 ss hws hsm hinv)
      · rw [hws] at hrun
        dsimp only at hrun
        rcases hpr : (st.nodes.getD i default).process with _ | p
        · rw [hpr] at hrun
          dsimp only at hrun
          rcases hsm : (st.nodes.getD i default).samples with _ | ⟨s0, ss⟩
          · rw [hsm] at hrun
            dsimp only at hrun
            exact Option.noConfusion hrun
          · rw [hsm] at hrun
            dsimp only at hrun
            exact ih _ _ _ hrun (orderInv_inst s t i hst st rest w hws hpr hinv)
        · rw [hpr] at hrun
          dsimp only at hrun
          exact ih _ _ _ hrun (orderInv_skip s t i st rest w p hws hpr hinv)

/-! ## Claim theorems -/

/-- C3.  The claim states that a trimmed cell that is not an object or
array literal, contains exactly one dot and parses as a float converts to a
number-valued map, with "3.14" becoming the float 3.14.  The code instead
returns the map holding the STRING "3.14": cellToFloat's Unmarshal check is
written err == nil where its own doc comment promises the string fallback
only on failure, so every successfully parsed float is routed to
cellToString.  This theorem evaluates the converter at the claim's own
example input. -/
theorem C3_float_cell_converts_to_string :
    cellToJSONMap "3.14" = .ok [("value", Json.str "3.14")] := by
  rfl

/-- C5.  When the create-experiment remote call fails, Creater.Apply
returns immediately after that single call: no workflow nodes are built, no
further remote call is traced, and the returned error is nil (the source
returns nil, not err, in the failure branch), so every caller observes
success. -/
theorem C5_experiment_error_returns_nil (hasParent : Bool) (worksheets : List Worksheet)
    (fuel : Nat) :
    CreaterApply true hasParent worksheets fuel =
      some (none, { nodes := #[], trace := [RCall.createExperiment], nextId := 0, count := 1,
                    byCallCounts := [("createExperiment", 1)] }) := by
  rfl

/-- C7.  ValidateKeywords returns an error exactly when one of the three
keyword sets is empty or some keyword belongs to two or more of the sets;
in every other configuration it returns nil. -/
theorem C7_validateKeywords_iff (kw : Keywords) :
    (ValidateKeywords kw).isSome ↔
      (kw.processAttributeKeywords = [] ∨ kw.sampleAttributeKeywords = [] ∨
       kw.fileAttributeKeywords = [] ∨ ∃ k, keywordInTwoSets kw k) := by
  have overlap : overlappingKeywords kw = true ↔ ∃ k, keywordInTwoSets kw k := by
    unfold overlappingKeywords
    rw [List.any_eq_true]
    constructor
    · rintro ⟨k, hk, hcount⟩
      refine ⟨k, ?_⟩
      have hc : keywordCount kw k ≠ 1 := by simpa using hcount
      have hk' : k ∈ kw.processAttributeKeywords ∨ k ∈ kw.sampleAttributeKeywords ∨
          k ∈ kw.fileAttributeKeywords := by
        simpa [List.mem_append, or_assoc] using hk
      unfold keywordCount at hc
      unfold keywordInTwoSets
      by_cases hp : k ∈ kw.processAttributeKeywords <;>
        by_cases hs : k ∈ kw.sampleAttributeKeywords <;>
          by_cases hf : k ∈ kw.fileAttributeKeywords <;>
            simp [hp, hs, hf, List.elem_iff] at hc ⊢ <;> tauto
    · rintro ⟨k, h2⟩
      have hmem : k ∈ kw.processAttributeKeywords ++ kw.sampleAttributeKeywords ++
          kw.fileAttributeKeywords := by
        rcases h2 with ⟨h, _⟩ | ⟨h, _⟩ | ⟨h, _⟩ <;> simp [List.mem_append, h]
      refine ⟨k, hmem, ?_⟩
      have hc : keywordCount kw k ≠ 1 := by
        unfold keywordCount
        rcases h2 with ⟨h1, h2⟩ | ⟨h1, h2⟩ | ⟨h1, h2⟩ <;>
          simp [h1, h2, List.elem_iff] <;> split <;> omega
      simpa using hc
  by_cases hp : kw.processAttributeKeywords = [] <;>
    by_cases hs : kw.sampleAttributeKeywords = [] <;>
      by_cases hf : kw.fileAttributeKeywords = [] <;>
        by_cases ho : overlappingKeywords kw = true <;>
          simp [ValidateKeywords, List.isEmpty_iff, hp, hs, hf, ho, ← overlap]

/-- C2.  The claim (and spec scenario S1, and the worked example in the
workflow module's own header comment) expects the S1 and S2 rows, which
share process attributes (300, 400), to collapse into ONE unique process
instance, for 2 process nodes and 2 create-process calls.  The code
disagrees: makeSampleInstanceKey prepends sample.Name to the hashed key, so
rows of distinct samples never share an instance.  Evaluating the embedded
pipeline at the claim's input: 3 roots as claimed, but 3 unique process
instances, each holding a single member row, and 3 create-process calls;
the other three call counts match the claim (3 create-sample,
3 add-sample-and-files, 3 add-measurements). -/
theorem C2_heat_scenario_evaluated :
    heatWorkflow.root.length = 3 ∧
    heatWorkflow.uniqueProcessInstances.length = 3 ∧
    (heatWorkflow.nodes.toList.filter (fun n => n.worksheet.isSome)).map
      (fun n => (n.sampleName, n.samples.length)) = [("S1", 1), ("S2", 1), ("S3", 1)] ∧
    heatFinal.map (fun st => countCalls st.trace isCreateSampleCall) = some 3 ∧
    heatFinal.map (fun st => countCalls st.trace isCreateProcessCall) = some 3 ∧
    heatFinal.map (fun st => countCalls st.trace isAddSampleCall) = some 3 ∧
    heatFinal.map (fun st => countCalls st.trace isAddMeasurementsCall) = some 3 := by
  refine ⟨rfl, rfl, rfl, ?_, ?_, ?_, ?_⟩ <;> decide

/-- C4 counterexample.  The claim says a non-blank header cell without a
colon (past the reserved columns) is classified as a sample-attribute
column, its header recorded and its data cells appended.  At the concrete
keywordless header Grain in column 3 of a has-parent worksheet the code
instead classifies the column unknown, records no header and no
column-kind entry, and the data cell 7 of that column is skipped (the
parsed row sample carries no attributes). -/
theorem C4_counterexample_keywordless_header :
    columnAttributeTypeFromKeyword defaultKeywords "Grain" ≠ .sampleAttributeColumn ∧
    columnAttributeTypeFromKeyword defaultKeywords "Grain" = .unknownAttributeColumn ∧
    (processHeaderRow defaultKeywords true "W" 1 ["Name", "Parent", "Grain"]).map
      (fun hs => (hs.ws.sampleAttrs.length, hs.columnType.length)) = some (0, 0) ∧
    (processHeaderRow defaultKeywords true "W" 1 ["Name", "Parent", "Grain"]).bind
      (fun hs => (processSampleRow hs true 2 ["S", "", "7"]).map
        (fun r => match r with
          | .ok s => s.attributes.length
          | _ => 99)) = some 0 := by
  refine ⟨by decide, by decide, rfl, rfl⟩

/-- C4 amended.  A non-blank header cell whose trimmed, lowercased text
contains no colon is classified as an UNKNOWN column (not a
sample-attribute column): processHeaderRow leaves the state untouched at
that cell (no header of any kind, no column-kind entry, only a logged
warning), and a data-row cell of a column absent from the column-kind map
is skipped outright by processSampleRow. -/
theorem C4_no_keyword_header_is_unknown (kw : Keywords) (cell : String)
    (hnb : goTrimSpace cell ≠ "")
    (hnc : containsChar (goToLower (goTrimSpace cell)) ':' = false) :
    columnAttributeTypeFromKeyword kw (goTrimSpace cell) = .unknownAttributeColumn ∧
    (∀ hasParent st column, processHeaderCell kw hasParent st column cell = some st) ∧
    (∀ hs hasParent rowIndex cur column0 v
        (rest : List String),
      column0 + 1 ≠ 1 → ¬(column0 + 1 = 2 ∧ hasParent = true) →
      ctGet hs.columnType (column0 + 1) = none →
      processRowCells hs hasParent rowIndex cur column0 (v :: rest) =
        processRowCells hs hasParent rowIndex cur (column0 + 1) rest) := by
  have hn : charIndex (goToLower (goTrimSpace cell)).data ':' = none := by
    rw [charIndex_none_iff]
    intro hm
    have hc : containsChar (goToLower (goTrimSpace cell)) ':' = true := List.elem_iff.mpr hm
    rw [hc] at hnc
    cases hnc
  have hcls : columnAttributeTypeFromKeyword kw (goTrimSpace cell) = .unknownAttributeColumn := by
    unfold columnAttributeTypeFromKeyword hasKeywordInCell
    simp [hn]
  refine ⟨hcls, ?_, ?_⟩
  · intro hasParent st column
    simp only [processHeaderCell]
    split
    · rfl
    · split
      · rfl
      · rw [hcls]
  · intro hs hasParent rowIndex cur column0 v rest h1 h2 hct
    conv_lhs => rw [processRowCells.eq_def]
    dsimp only
    rw [if_neg h1]
    have h2' : ¬((column0 + 1 = 2) ∧ hasParent = true) := h2
    rw [if_neg (by simpa using h2')]
    by_cases hb : isBlank (goTrimSpace v)
    · simp [hb]
    · simp [hb, hct]

/-- C8 counterexample.  The claim asserts the name/unit parser returns a
(name, unit) pair for every header cell in which both '(' and ')' occur
(name = text before '(', unit = text between the parens).  In the cell
s:x)y(z both parens occur in the keyword-stripped remainder x)y(z, but the
first ')' precedes the first '(' so Go slices cell[open+1:close] with
inverted bounds and panics instead of returning; the embedding yields
none. -/
theorem C8_counterexample_inverted_parens :
    containsChar "x)y(z" '(' = true ∧ containsChar "x)y(z" ')' = true ∧
    cell2NameAndUnit "s:x)y(z" = none := by
  refine ⟨by decide, by decide, by decide⟩

/-- C8 amended.  After trimming and stripping the optional keyword prefix
up to the first ':', cell2NameAndUnit returns: (remainder, "") when the
remainder contains no '('; (text before '(', text from just after '(' to
end-of-string) when '(' occurs but ')' does not; and, when both occur,
(text before '(', text between the first '(' and the first ')') PROVIDED
the first ')' comes after the first '(' — when the first ')' precedes the
first '(' the Go slice bounds are inverted and the program panics, so no
pair is returned.  Name and unit are trimmed in all cases, and a wholly
blank cell yields ("", ""). -/
theorem C8_cell2NameAndUnit_spec (cell : String) :
    (goTrimSpace cell = "" → cell2NameAndUnit cell = some ("", "")) ∧
    (goTrimSpace cell ≠ "" → (specStripped cell).toList.contains '(' = false →
      cell2NameAndUnit cell = some (specStripped cell, "")) ∧
    (goTrimSpace cell ≠ "" → (specStripped cell).toList.contains '(' = true →
      (specStripped cell).toList.contains ')' = false →
      cell2NameAndUnit cell =
        some (goTrimSpace (specBeforeParen cell),
          goTrimSpace ⟨((specStripped cell).toList.dropWhile (fun a => a ≠ '(')).drop 1⟩)) ∧
    (goTrimSpace cell ≠ "" → (specStripped cell).toList.contains '(' = true →
      (specStripped cell).toList.contains ')' = true →
      (specBeforeParen cell).toList.contains ')' = false →
      cell2NameAndUnit cell =
        some (goTrimSpace (specBeforeParen cell),
          goTrimSpace ⟨(((specStripped cell).toList.dropWhile (fun a => a ≠ '(')).drop 1).takeWhile
            (fun a => a ≠ ')')⟩)) ∧
    (goTrimSpace cell ≠ "" → (specStripped cell).toList.contains '(' = true →
      (specBeforeParen cell).toList.contains ')' = true →
      cell2NameAndUnit cell = none) := by
  by_cases htc : goTrimSpace cell = ""
  · refine ⟨fun _ => ?_, fun h => absurd htc h, fun h => absurd htc h, fun h => absurd htc h,
      fun h => absurd htc h⟩
    unfold cell2NameAndUnit
    rw [if_pos htc]
  · have hstrip :
        (match charIndex (goTrimSpace cell).toList ':' with
          | some i => goTrimSpace ⟨(goTrimSpace cell).toList.drop (i + 1)⟩
          | none => goTrimSpace cell) = specStripped cell := by
      unfold specStripped
      cases hci : charIndex (goTrimSpace cell).toList ':' with
      | none =>
        have hnm : ':' ∉ (goTrimSpace cell).toList := (charIndex_none_iff _ _).mp hci
        rw [if_neg (by rw [(contains_eq_false_iff _ _).mpr hnm]; exact Bool.false_ne_true)]
      | some i =>
        have hmem : ':' ∈ (goTrimSpace cell).toList := by
          by_contra hnm
          rw [(charIndex_none_iff _ _).mpr hnm] at hci
          cases hci
        rw [if_pos ((contains_eq_true_iff _ _).mpr hmem)]
        dsimp only
        rw [← charIndex_drop _ _ _ hci, List.drop_drop]
    have hunfold : cell2NameAndUnit cell =
        (match charIndex (specStripped cell).toList '(' with
          | none => some (specStripped cell, "")
          | some o =>
            match charIndex (specStripped cell).toList ')' with
            | some c =>
              if o + 1 ≤ c then
                some (goTrimSpace ⟨(specStripped cell).toList.take o⟩,
                  goTrimSpace ⟨goSlice (specStripped cell).toList (o + 1) c⟩)
              else none
            | none =>
              some (goTrimSpace ⟨(specStripped cell).toList.take o⟩,
                goTrimSpace ⟨(specStripped cell).toList.drop (o + 1)⟩)) := by
      unfold cell2NameAndUnit
      rw [if_neg htc]
      dsimp only
      rw [hstrip]
    refine ⟨fun h => absurd h htc, ?_, ?_, ?_, ?_⟩
    · intro _ hnp
      have hno : '(' ∉ (specStripped cell).toList := (contains_eq_false_iff _ _).mp hnp
      rw [hunfold, (charIndex_none_iff _ '(').mpr hno]
    · intro _ hp hnc
      obtain ⟨o, ho⟩ : ∃ o, charIndex (specStripped cell).toList '(' = some o := by
        cases hh : charIndex (specStripped cell).toList '(' with
        | none => exact absurd ((contains_eq_true_iff _ _).mp hp) ((charIndex_none_iff _ _).mp hh)
        | some o => exact ⟨o, rfl⟩
      have hno : ')' ∉ (specStripped cell).toList := (contains_eq_false_iff _ _).mp hnc
      rw [hunfold, ho, (charIndex_none_iff _ ')').mpr hno]
      dsimp only
      have htake : (specStripped cell).toList.take o =
          (specStripped cell).toList.takeWhile (fun a => a ≠ '(') := charIndex_take _ _ _ ho
      have hdrop : (specStripped cell).toList.drop o =
          (specStripped cell).toList.dropWhile (fun a => a ≠ '(') := charIndex_drop _ _ _ ho
      have hbp : (⟨(specStripped cell).toList.take o⟩ : String) = specBeforeParen cell := by
        unfold specBeforeParen
        rw [htake]
      rw [hbp, show (specStripped cell).toList.drop (o + 1) =
        ((specStripped cell).toList.drop o).drop 1 by rw [List.drop_drop, Nat.add_comm], hdrop]
    · intro _ hp hc hnb
      obtain ⟨o, ho⟩ : ∃ o, charIndex (specStripped cell).toList '(' = some o := by
        cases hh : charIndex (specStripped cell).toList '(' with
        | none => exact absurd ((contains_eq_true_iff _ _).mp hp) ((charIndex_none_iff _ _).mp hh)
        | some o => exact ⟨o, rfl⟩
      obtain ⟨c, hcI⟩ : ∃ c, charIndex (specStripped cell).toList ')' = some c := by
        cases hh : charIndex (specStripped cell).toList ')' with
        | none => exact absurd ((contains_eq_true_iff _ _).mp hc) ((charIndex_none_iff _ _).mp hh)
        | some c => exact ⟨c, rfl⟩
      have htake : (specStripped cell).toList.take o =
          (specStripped cell).toList.takeWhile (fun a => a ≠ '(') := charIndex_take _ _ _ ho
      have hdrop : (specStripped cell).toList.drop o =
          (specStripped cell).toList.dropWhile (fun a => a ≠ '(') := charIndex_drop _ _ _ ho
      have hno : ')' ∉ (specStripped cell).toList.take o := by
        intro hm
        rw [htake] at hm
        have : (specBeforeParen cell).toList.contains ')' = true := by
          unfold specBeforeParen
          exact (contains_eq_true_iff _ _).mpr hm
        rw [this] at hnb
        cases hnb
      have hoc : ¬ c < o := fun hlt =>
        hno ((charIndex_mem_take _ ')' c hcI o).mpr hlt)
      have hne : c ≠ o := by
        intro heq
        obtain ⟨h1, hg1⟩ := charIndex_get _ '(' o ho
        obtain ⟨h2, hg2⟩ := charIndex_get _ ')' c hcI
        subst heq
        rw [hg1] at hg2
        cases hg2
      have hlt : o + 1 ≤ c := by omega
      rw [hunfold, ho, hcI]
      dsimp only
      rw [if_pos hlt]
      have hshift : charIndex ((specStripped cell).toList.drop (o + 1)) ')' = some (c - (o + 1)) :=
        charIndex_drop_shift _ ')' c (o + 1) hcI hlt
      have htake2 : ((specStripped cell).toList.drop (o + 1)).take (c - (o + 1)) =
          ((specStripped cell).toList.drop (o + 1)).takeWhile (fun a => a ≠ ')') :=
        charIndex_take _ _ _ hshift
      have hslice : goSlice (specStripped cell).toList (o + 1) c =
          ((specStripped cell).toList.drop (o + 1)).take (c - (o + 1)) := by
        unfold goSlice
        rw [List.drop_take]
      have hbp : (⟨(specStripped cell).toList.take o⟩ : String) = specBeforeParen cell := by
        unfold specBeforeParen
        rw [htake]
      rw [hslice, htake2, hbp, show (specStripped cell).toList.drop (o + 1) =
        ((specStripped cell).toList.drop o).drop 1 by rw [List.drop_drop, Nat.add_comm], hdrop]
    · intro _ hp hb
      obtain ⟨o, ho⟩ : ∃ o, charIndex (specStripped cell).toList '(' = some o := by
        cases hh : charIndex (specStripped cell).toList '(' with
        | none => exact absurd ((contains_eq_true_iff _ _).mp hp) ((charIndex_none_iff _ _).mp hh)
        | some o => exact ⟨o, rfl⟩
      have htake : (specStripped cell).toList.take o =
          (specStripped cell).toList.takeWhile (fun a => a ≠ '(') := charIndex_take _ _ _ ho
      have hbmem : ')' ∈ (specStripped cell).toList.take o := by
        rw [htake]
        exact (contains_eq_true_iff _ _).mp hb
      have hmem : ')' ∈ (specStripped cell).toList := List.mem_of_mem_take hbmem
      obtain ⟨c, hcI⟩ : ∃ c, charIndex (specStripped cell).toList ')' = some c := by
        cases hh : charIndex (specStripped cell).toList ')' with
        | none => exact absurd hmem ((charIndex_none_iff _ _).mp hh)
        | some c => exact ⟨c, rfl⟩
      have hco : c < o := (charIndex_mem_take _ ')' c hcI o).mp hbmem
      rw [hunfold, ho, hcI]
      dsimp only
      rw [if_neg (show ¬ o + 1 ≤ c by omega)]

/-- C4 witness: the amended classification applied at the keywordless
header cell Grain under the default keywords. -/
theorem C4_no_keyword_header_is_unknown_witness :
    goTrimSpace "Grain" ≠ "" ∧
    containsChar (goToLower (goTrimSpace "Grain")) ':' = false ∧
    columnAttributeTypeFromKeyword defaultKeywords (goTrimSpace "Grain") =
      .unknownAttributeColumn := by
  refine ⟨by decide, by decide, ?_⟩
  exact (C4_no_keyword_header_is_unknown defaultKeywords "Grain" (by decide) (by decide)).1

/-- C8 witness: the amended parser specification applied at the header
cell s:len(mm), whose stripped remainder has its first ')' after its first
'('. -/
theorem C8_cell2NameAndUnit_spec_witness :
    goTrimSpace "s:len(mm)" ≠ "" ∧
    (specStripped "s:len(mm)").toList.contains '(' = true ∧
    (specStripped "s:len(mm)").toList.contains ')' = true ∧
    (specBeforeParen "s:len(mm)").toList.contains ')' = false ∧
    cell2NameAndUnit "s:len(mm)" = some ("len", "mm") := by
  refine ⟨by decide, by decide, by decide, by decide, ?_⟩
  have h := (C8_cell2NameAndUnit_spec "s:len(mm)").2.2.2.1
    (by decide) (by decide) (by decide) (by decide)
  rw [h]
  decide

/-- C9 counterexample.  The claim says every string-fallback cell
containing a double quote fails to convert.  The cell a\"b (backslash,
quote) contains a double quote and reaches the fallback, yet the
interpolated text is VALID JSON (the backslash escapes the quote), so
cellToJSONMap succeeds. -/
theorem C9_counterexample_escaped_quote :
    containsChar "a\\\"b" '"' = true ∧
    headIs "a\\\"b" lbrace = false ∧ headIs "a\\\"b" '[' = false ∧
    countChar "a\\\"b" '.' = 0 ∧ goParseInt64 "a\\\"b" = none ∧
    goParseBool "a\\\"b" = none ∧
    (cellToJSONMap "a\\\"b").isOk = true := by
  decide

/-- C9 amended.  A trimmed, non-blank data cell that falls through the
converter's object, array, float, int and bool branches to the string
fallback converts to an error exactly when the quote-wrapped interpolated
text is not valid JSON (a double quote usually breaks validity, though it
can instead complete a larger valid object, as the counterexample shows);
when it is invalid, the conversion error aborts the enclosing worksheet's
load: loadWorksheet returns the contextualized error instead of a
worksheet. -/
theorem C9_invalid_fallback_aborts_load (cell : String)
    (hobj : (headIs cell lbrace && lastIs cell rbrace) = false)
    (harr : (headIs cell '[' && lastIs cell ']') = false)
    (hdot : countChar cell '.' ≠ 1)
    (hint : goParseInt64 cell = none)
    (hbool : goParseBool cell = none)
    (hjson : jsonUnmarshalMap (wrapStringText cell) = none)
    (htrim : goTrimSpace cell = cell)
    (hblank : isBlank cell = false) :
    (∃ e, cellToJSONMap cell = .error e) ∧
    (∃ e, loadWorksheet defaultKeywords true 0 "W" 1 [["N", "P", "s:A"], ["S", "", cell]] =
      some (.error e)) := by
  have herr : cellToJSONMap cell = .error ("cannot convert cell to JSON string: " ++ cell) := by
    unfold cellToJSONMap
    rw [hobj, harr]
    simp only [Bool.false_eq_true, if_false]
    rw [if_neg (by simp [hdot]), hint, hbool]
    unfold cellToString
    rw [hjson]
  refine ⟨⟨_, herr⟩, ?_⟩
  have hstep1 : processSampleRow
      ⟨{ name := "W", index := 1, sampleAttrs := [⟨"A", "", 3, none⟩] }, [(3, .sampleAttributeColumn)]⟩
      true 2 ["S", "", cell] =
      processRowCells
        ⟨{ name := "W", index := 1, sampleAttrs := [⟨"A", "", 3, none⟩] }, [(3, .sampleAttributeColumn)]⟩
        true 2 (some { name := "S", parent := "", row := 2 }) 2 [cell] := rfl
  have hstep2 : processRowCells
      ⟨{ name := "W", index := 1, sampleAttrs := [⟨"A", "", 3, none⟩] }, [(3, .sampleAttributeColumn)]⟩
      true 2 (some { name := "S", parent := "", row := 2 }) 2 [cell] =
      some (.err ("Error converting cell in worksheet W: row, column, value " ++ cell ++
        ": " ++ ("cannot convert cell to JSON string: " ++ cell))) := by
    conv_lhs => rw [processRowCells.eq_def]
    dsimp only
    rw [htrim]
    rw [if_neg (by decide), if_neg (by decide)]
    rw [if_neg (by rw [hblank]; exact Bool.false_ne_true)]
    rw [show ctGet [(3, ColumnAttributeType.sampleAttributeColumn)] 3 =
      some .sampleAttributeColumn from rfl]
    rw [show findAttr [⟨"A", "", 3, none⟩] 3 = some ⟨"A", "", 3, none⟩ from rfl]
    rw [herr]
    rfl
  refine ⟨("Error converting cell in worksheet W: row, column, value " ++ cell ++ ": " ++
    ("cannot convert cell to JSON string: " ++ cell)), ?_⟩
  unfold loadWorksheet
  dsimp only [List.drop]
  rw [show processHeaderRow defaultKeywords true "W" 1 ["N", "P", "s:A"] =
    some ⟨{ name := "W", index := 1, sampleAttrs := [⟨"A", "", 3, none⟩] },
      [(3, .sampleAttributeColumn)]⟩ from rfl]
  show loadDataRows true _ 1 [["S", "", cell]] = _
  unfold loadDataRows
  rw [hstep1, hstep2]
  rfl

/-- C9 witness: the amended statement applied at the one-character cell
consisting of a double quote, whose wrapped text is invalid JSON. -/
theorem C9_invalid_fallback_aborts_load_witness :
    jsonUnmarshalMap (wrapStringText "\"") = none ∧
    (∃ e, cellToJSONMap "\"" = .error e) := by
  refine ⟨rfl, (C9_invalid_fallback_aborts_load "\"" (by decide) (by decide) (by decide)
    rfl rfl rfl rfl rfl).1⟩

/-- Any error a sample contributes in parent validation lands in the
accumulated validateParents list. -/
theorem mem_validateParents (worksheets : List Worksheet) (w : Worksheet) (s : Sample)
    (hw : w ∈ worksheets) (hs : s ∈ w.samples) (e : String)
    (he : e ∈ parentErrorsFor (worksheets.map (fun x => x.name)) w.name s) :
    e ∈ validateParents worksheets := by
  unfold validateParents
  rw [List.mem_flatten]
  refine ⟨(w.samples.map (parentErrorsFor (worksheets.map (fun x => x.name)) w.name)).flatten,
    List.mem_map.mpr ⟨w, hw, rfl⟩, ?_⟩
  rw [List.mem_flatten]
  exact ⟨_, List.mem_map.mpr ⟨s, hs, rfl⟩, he⟩

/-- C6.  After the worksheets are parsed, every sample with a non-empty
Parent contributes a self-reference error when the parent names the
sample's own worksheet and an unknown-parent error when no loaded
worksheet bears that name; all the validation errors are appended after
the per-sheet parse errors into one accumulated error list (no
short-circuit), and Load returns the successfully parsed worksheets
alongside it. -/
theorem C6_parent_validation_accumulates
    (kw : Keywords) (hasParent : Bool) (headerRow : Nat) (sheets : List SheetData)
    (wss : List Worksheet) (errs : List String)
    (h : Load kw hasParent headerRow sheets = some (wss, errs)) :
    (∃ perrs, errs = perrs ++ validateParents wss) ∧
    ∀ w ∈ wss, ∀ s ∈ w.samples, s.parent ≠ "" →
      (s.parent = w.name →
        ("process " ++ w.name ++ " has Sample " ++ s.name ++
          " who's parent is the current process") ∈ errs) ∧
      ((wss.map (fun x => x.name)).contains s.parent = false →
        ("sample " ++ s.name ++ " in process " ++ w.name ++ " has parent " ++ s.parent ++
          " that does not exist") ∈ errs) := by
  unfold Load at h
  cases hv : ValidateKeywords kw with
  | some e =>
    rw [hv] at h
    injection h with h
    injection h with h1 h2
    subst h1
    subst h2
    refine ⟨⟨[e], by simp [validateParents]⟩, ?_⟩
    intro w hw
    cases hw
  | none =>
    rw [hv] at h
    cases hls : loadSheets kw hasParent headerRow [] [] 1 sheets with
    | none => rw [hls] at h; cases h
    | some p =>
      obtain ⟨wss0, errs0⟩ := p
      rw [hls] at h
      simp only [Option.bind_eq_bind, Option.some_bind, Option.some.injEq, Prod.mk.injEq] at h
      obtain ⟨rfl, rfl⟩ := h
      refine ⟨⟨errs0, rfl⟩, ?_⟩
      intro w hw s hs hpne
      constructor
      · intro hself
        refine List.mem_append_right _ (mem_validateParents _ w s hw hs _ ?_)
        unfold parentErrorsFor
        rw [if_neg hpne, if_pos hself]
        exact List.mem_singleton.mpr rfl
      · intro hnc
        refine List.mem_append_right _ (mem_validateParents _ w s hw hs _ ?_)
        unfold parentErrorsFor
        have hname : w.name ∈ wss.map (fun x => x.name) := List.mem_map.mpr ⟨w, hw, rfl⟩
        have hns : s.parent ∉ wss.map (fun x => x.name) := by
          intro hm
          have : (wss.map (fun x => x.name)).contains s.parent = true := List.elem_iff.mpr hm
          rw [this] at hnc
          cases hnc
        have hnself : s.parent ≠ w.name := fun heq => hns (heq ▸ hname)
        rw [if_neg hpne, if_neg hnself, if_neg (by
          intro hcon
          exact hns (List.elem_iff.mp hcon))]
        exact List.mem_singleton.mpr rfl

/-- C6 witness: Load applied at the unknown-parent sheet of spec scenario
S4 returns the parsed worksheet together with the accumulated
unknown-parent error. -/
theorem C6_parent_validation_accumulates_witness :
    ∃ wss errs, Load defaultKeywords true 0 [c6Sheet] = some (wss, errs) ∧
      ("sample S in process W has parent NoSuch that does not exist") ∈ errs := by
  refine ⟨[{ name := "W", index := 1,
             samples := [{ name := "S", parent := "NoSuch", row := 2,
                           attributes := [⟨"A", "", 3, some [("value", Json.num "1")]⟩] }],
             sampleAttrs := [⟨"A", "", 3, none⟩] }],
    ["sample S in process W has parent NoSuch that does not exist"], rfl, ?_⟩
  have happ := C6_parent_validation_accumulates defaultKeywords true 0 [c6Sheet] _ _ rfl
  exact (happ.2 _ (List.mem_singleton.mpr rfl) _ (List.mem_singleton.mpr rfl)
    (by decide)).2 (by decide)


/-- C10: edge wiring appends exactly one From/To pair per sample row with no
deduplication, so when k rows of a worksheet collapse to the same unique
process instance, the instance node's From list holds the root supplier k
times, and materialization issues k add-sample-and-files-to-process calls
for that single input sample. -/
theorem C10_duplicate_edges (k : Nat) (hk : 1 ≤ k) :
    ((dupWorkflow k).nodes.getD 1 default).fromNodes = List.replicate k 0 ∧
    ∃ st, dupFinal k = some st ∧
      st.trace.filter isAddSampleCall =
        List.replicate k (RCall.addSampleAndFilesToProcess 1 2 0 1) ∧
      countCalls st.trace isAddSampleCall = k := by
  obtain ⟨j, rfl⟩ : ∃ j, k = j + 1 := ⟨k - 1, by omega⟩
  have hwf := dup_built j
  obtain ⟨out', m', cnt', bcc', Δ, heq, hfil⟩ :=
    dup_inputs j (j + 1)
      { samples := [dupRow], toNodes := List.replicate (j + 1) 1, out := [s0dup] }
      { worksheet := some (dupWorksheet (j + 1)), key := dupKey, sampleName := "S",
        samples := List.replicate (j + 1) dupRow, fromNodes := List.replicate (j + 1) 0,
        process := some ⟨2⟩ }
      [.createExperiment, .createSample 0 0, .createProcessWithAttrs 1 2] 3 3
      (natMapInc (natMapInc [("createExperiment", 1)] "createSample") "createProcessWithAttrs")
  have hin : getInputSamples (dupSt2 j) ((dupSt2 j).nodes.getD 1 default) =
      List.replicate (j + 1) s0dup := by
    show ((List.replicate (j + 1) 0).map
      (fun i => ((dupSt2 j).nodes.getD i default).out)).flatten = _
    rw [List.map_replicate]
    exact flatten_replicate_singleton _ _
  have hA : runSteps (2 * (j + 1) + 4)
      ⟨#[{ samples := [dupRow], toNodes := List.replicate (j + 1) 1 },
         { worksheet := some (dupWorksheet (j + 1)), key := dupKey, sampleName := "S",
           samples := List.replicate (j + 1) dupRow,
           fromNodes := List.replicate (j + 1) 0 }],
        [.createExperiment], 0, 1, [("createExperiment", 1)]⟩ [0] =
      runSteps (2 * j + 5)
        ⟨#[{ samples := [dupRow], toNodes := List.replicate (j + 1) 1, out := [s0dup] },
           { worksheet := some (dupWorksheet (j + 1)), key := dupKey, sampleName := "S",
             samples := List.replicate (j + 1) dupRow,
             fromNodes := List.replicate (j + 1) 0 }],
          [.createExperiment, .createSample 0 0], 2, 2,
          natMapInc [("createExperiment", 1)] "createSample"⟩
        (List.replicate (j + 1) 1 ++ []) := rfl
  have hB : runSteps (2 * j + 5)
      ⟨#[{ samples := [dupRow], toNodes := List.replicate (j + 1) 1, out := [s0dup] },
         { worksheet := some (dupWorksheet (j + 1)), key := dupKey, sampleName := "S",
           samples := List.replicate (j + 1) dupRow,
           fromNodes := List.replicate (j + 1) 0 }],
        [.createExperiment, .createSample 0 0], 2, 2,
        natMapInc [("createExperiment", 1)] "createSample"⟩
      (List.replicate (j + 1) 1 ++ []) =
      runSteps (2 * j + 4)
        (processInputs 1 2 (dupWorksheet (j + 1)) (dupSt2 j)
          (getInputSamples (dupSt2 j) ((dupSt2 j).nodes.getD 1 default)))
        ([] ++ (List.replicate j 1 ++ [])) := rfl
  have hrun0 : runSteps (2 * (j + 1) + 4)
      ⟨#[{ samples := [dupRow], toNodes := List.replicate (j + 1) 1 },
         { worksheet := some (dupWorksheet (j + 1)), key := dupKey, sampleName := "S",
           samples := List.replicate (j + 1) dupRow,
           fromNodes := List.replicate (j + 1) 0 }],
        [.createExperiment], 0, 1, [("createExperiment", 1)]⟩ [0] =
      some ⟨#[{ samples := [dupRow], toNodes := List.replicate (j + 1) 1, out := [s0dup] },
         { worksheet := some (dupWorksheet (j + 1)), key := dupKey, sampleName := "S",
           samples := List.replicate (j + 1) dupRow, fromNodes := List.replicate (j + 1) 0,
           process := some ⟨2⟩, out := out' }],
        [.createExperiment, .createSample 0 0, .createProcessWithAttrs 1 2] ++ Δ,
        m', cnt', bcc'⟩ := by
    rw [hA, hB, hin]
    simp only [dupSt2]
    rw [heq]
    simp only [List.nil_append, List.append_nil]
    exact dup_revisits j (2 * j + 4) _ (dupWorksheet (j + 1)) ⟨2⟩ (by omega) rfl rfl rfl
  have hfinal : dupFinal (j + 1) =
      some (recordCall ⟨#[{ samples := [dupRow], toNodes := List.replicate (j + 1) 1, out := [s0dup] },
         { worksheet := some (dupWorksheet (j + 1)), key := dupKey, sampleName := "S",
           samples := List.replicate (j + 1) dupRow, fromNodes := List.replicate (j + 1) 0,
           process := some ⟨2⟩, out := out' }],
        [.createExperiment, .createSample 0 0, .createProcessWithAttrs 1 2] ++ Δ,
        m', cnt', bcc'⟩ "updateExperimentProgress" .updateExperimentProgress) := by
    show (match runSteps (2 * (j + 1) + 4)
        ({ nodes := (constructWorkflow true [dupWorksheet (j + 1)]).nodes,
           trace := [.createExperiment], nextId := 0, count := 1,
           byCallCounts := [("createExperiment", 1)] } : CState)
        (constructWorkflow true [dupWorksheet (j + 1)]).root with
      | none => none
      | some st' => some ((none : Option String),
          recordCall st' "updateExperimentProgress" .updateExperimentProgress)).map
        Prod.snd = _
    rw [hwf]
    dsimp only
    rw [hrun0]
    rfl
  refine ⟨?_, recordCall ⟨#[{ samples := [dupRow], toNodes := List.replicate (j + 1) 1, out := [s0dup] },
         { worksheet := some (dupWorksheet (j + 1)), key := dupKey, sampleName := "S",
           samples := List.replicate (j + 1) dupRow, fromNodes := List.replicate (j + 1) 0,
           process := some ⟨2⟩, out := out' }],
        [.createExperiment, .createSample 0 0, .createProcessWithAttrs 1 2] ++ Δ,
        m', cnt', bcc'⟩ "updateExperimentProgress" .updateExperimentProgress,
    hfinal, ?_, ?_⟩
  · unfold dupWorkflow
    rw [hwf]
    rfl
  · show ((([RCall.createExperiment, RCall.createSample 0 0,
        RCall.createProcessWithAttrs 1 2] ++ Δ) ++
        [RCall.updateExperimentProgress]).filter isAddSampleCall) =
      List.replicate (j + 1) (RCall.addSampleAndFilesToProcess 1 2 0 1)
    simp [List.filter_append, hfil, isAddSampleCall]
  · show (((([RCall.createExperiment, RCall.createSample 0 0,
        RCall.createProcessWithAttrs 1 2] ++ Δ) ++
        [RCall.updateExperimentProgress]).filter isAddSampleCall)).length = j + 1
    simp [List.filter_append, hfil, isAddSampleCall]

/-- Witness for C10 at k = 2. -/
theorem C10_duplicate_edges_witness : 1 ≤ 2 ∧
    (((dupWorkflow 2).nodes.getD 1 default).fromNodes = List.replicate 2 0 ∧
    ∃ st, dupFinal 2 = some st ∧
      st.trace.filter isAddSampleCall =
        List.replicate 2 (RCall.addSampleAndFilesToProcess 1 2 0 1) ∧
      countCalls st.trace isAddSampleCall = 2) :=
  ⟨by decide, C10_duplicate_edges 2 (by decide)⟩



/-- C1 counterexample: in the two-worksheet scenario, instance node 1 (the
"B" worksheet process of the S1 row with parent "A") has the two suppliers
0 (the S1 root) and 2 (the "A" worksheet process); its create-process and
attach calls are all issued before supplier 2's add-sample-and-files output
call, and node 1 attaches only supplier 0's sample because it reads node
2's still-empty Out list. -/
theorem C1_counterexample_multi_supplier :
    (cexWorkflow.nodes.getD 1 default).fromNodes = [0, 2] ∧
    cexFinal.map
      (fun st => decide (callsBefore st.trace (outputCallOf 2) (issuedBy 1))) =
      some false ∧
    cexFinal.map
      (fun st => st.trace.filter (fun c => isAddSampleCall c && issuedBy 1 c)) =
      some [RCall.addSampleAndFilesToProcess 1 2 0 1] := by
  refine ⟨by decide, by decide, ?_⟩
  rfl

/-- C1: when the consumer t of the edge s → t is reachable only through its
supplier s — no other node lists t among its To children, t is not a
root, and a root supplier stands at most once in the worklist — every
remote call that creates s's output samples (create-sample for a root,
add-sample-and-files for an instance) is issued by Creater.Apply strictly
before every remote call for t.  The counterexample shows the guarantee
fails without uniqueness of the supplier. -/
theorem C1_single_supplier_ordering (s t : Nat) (hst : s ≠ t) (hasParent : Bool)
    (wss : List Worksheet) (fuel : Nat) (err : Option String) (stF : CState)
    (happ : CreaterApply false hasParent wss fuel = some (err, stF))
    (hedge : s ∈ ((constructWorkflow hasParent wss).nodes.getD t default).fromNodes)
    (hinv : orderInv s t
      { nodes := (constructWorkflow hasParent wss).nodes,
        trace := [RCall.createExperiment], nextId := 0, count := 1,
        byCallCounts := [("createExperiment", 1)] }
      (constructWorkflow hasParent wss).root) :
    callsBefore stF.trace (outputCallOf s) (issuedBy t) := by
  have happ2 : (match runSteps fuel
      ({ nodes := (constructWorkflow hasParent wss).nodes,
         trace := [RCall.createExperiment], nextId := 0, count := 1,
         byCallCounts := [("createExperiment", 1)] } : CState)
      (constructWorkflow hasParent wss).root with
    | none => (none : Option (Option String × CState))
    | some st2 => some ((none : Option String),
        recordCall st2 "updateExperimentProgress" .updateExperimentProgress)) =
      some (err, stF) := happ
  rcases hr : runSteps fuel
      ({ nodes := (constructWorkflow hasParent wss).nodes,
         trace := [RCall.createExperiment], nextId := 0, count := 1,
         byCallCounts := [("createExperiment", 1)] } : CState)
      (constructWorkflow hasParent wss).root with _ | st2
  · rw [hr] at happ2
    exact Option.noConfusion happ2
  · rw [hr] at happ2
    dsimp only at happ2
    have he : ((none : Option String),
        recordCall st2 "updateExperimentProgress" .updateExperimentProgress) =
        (err, stF) := Option.some.inj happ2
    cases he
    have hc : callsBefore st2.trace (outputCallOf s) (issuedBy t) :=
      runSteps_order s t hst fuel _ _ _ hr hinv
    have hres : callsBefore (st2.trace ++ [RCall.updateExperimentProgress])
        (outputCallOf s) (issuedBy t) :=
      callsBefore_append_q hc
        (fun c hcm => by rw [List.mem_singleton.mp hcm]; rfl)
    exact hres

/-- Witness for C1 at the one-row duplicate worksheet: the single instance
node 1 has exactly the root 0 as supplier and the invariant holds at the
start of the walk. -/
theorem C1_single_supplier_ordering_witness :
    ((0 : Nat) ≠ 1 ∧
      CreaterApply false true [dupWorksheet 1] 6 = some (none, c1WitnessSt) ∧
      0 ∈ ((constructWorkflow true [dupWorksheet 1]).nodes.getD 1 default).fromNodes ∧
      orderInv 0 1
        { nodes := (constructWorkflow true [dupWorksheet 1]).nodes,
          trace := [RCall.createExperiment], nextId := 0, count := 1,
          byCallCounts := [("createExperiment", 1)] }
        (constructWorkflow true [dupWorksheet 1]).root) ∧
    callsBefore c1WitnessSt.trace (outputCallOf 0) (issuedBy 1) :=
  ⟨⟨by decide, by rfl, by decide, by decide⟩,
    C1_single_supplier_ordering 0 1 (by decide) true [dupWorksheet 1] 6 none
      c1WitnessSt (by rfl) (by decide) (by decide)⟩


end Mcetl
